import Mathlib

/-!
# AI-Analyst: verification of the spec against the source

A shallow embedding of the finance-proxy core of the repository:
the numeric/date normalizers, the CSV/PDF parsers and the Sheets
ledger store, in both of their variants
(`src/finance_proxy/core/*` and the legacy `src/finance-proxy/*` /
`src/backend/storers/sheets.py`).

Python strings are modelled as `List Char` (`PyStr`).  Modelled input
space: the embedding covers text amounts/dates as they occur in ledger
cells and statements; Python-specific literal forms that the code never
produces (`"NaN"`, `"Infinity"`, exponent notation for `Decimal`,
ISO 8601 strings carrying a time-of-day part for `fromisoformat`) are
outside the modelled grammar, and `Decimal` arithmetic is modelled with
unbounded precision (the 28-digit context limit is not modelled).
Numeric spreadsheet cells are modelled by their textual form.
-/

namespace AIAnalyst

abbrev PyStr := List Char

/-- Concrete Python string literal as a char list. -/
def pys (s : String) : PyStr := s.data

/-! ## Character helpers -/
def isDigitCh (c : Char) : Bool := '0' ≤ c ∧ c ≤ '9'

def charVal (c : Char) : Nat := c.toNat - '0'.toNat

/-- Python `str.lower()` restricted to the characters appearing in the
repository's data (ASCII plus the Swedish letters of the category and
alias tables). -/
def pyLowerCh (c : Char) : Char :=
  if 'A' ≤ c ∧ c ≤ 'Z' then Char.ofNat (c.toNat + 32)
  else if c = 'Ö' then 'ö'
  else if c = 'Ä' then 'ä'
  else if c = 'Å' then 'å'
  else c

def pyLower (s : PyStr) : PyStr := s.map pyLowerCh

def isWs (c : Char) : Bool := c = ' ' ∨ c = '\t' ∨ c = '\n' ∨ c = '\r'

/-- Python `str.strip()`. -/
def pyStrip (s : PyStr) : PyStr :=
  ((s.dropWhile isWs).reverse.dropWhile isWs).reverse

/-- Python `str.strip(chars)` for an explicit char set. -/
def pyStripSet (set : List Char) (s : PyStr) : PyStr :=
  ((s.dropWhile (set.contains ·)).reverse.dropWhile (set.contains ·)).reverse

/-- One step of whitespace collapsing: `" ".join(s.split())`. -/
def collapseWsAux : Bool → PyStr → PyStr
  | _, [] => []
  | pendingSpace, c :: rest =>
    if isWs c then collapseWsAux true rest
    else (if pendingSpace then [' ', c] else [c]) ++ collapseWsAux false rest

/-- Python `" ".join(s.split())`: trim and collapse all whitespace runs
to single spaces. -/
def collapseWs (s : PyStr) : PyStr :=
  match s.dropWhile isWs with
  | [] => []
  | c :: rest => c :: collapseWsAux false rest

/-- `str.replace(old, "")` for a single char: removes every occurrence. -/
def removeAllCh (c : Char) (s : PyStr) : PyStr := s.filter (· ≠ c)

/-- `str.replace(old, new)` for single chars. -/
def replaceCh (a b : Char) (s : PyStr) : PyStr :=
  s.map (fun c => if c = a then b else c)

/-! ## Decimal digits machinery -/
/-- Little-endian decimal digits with fuel (`n ≤ fuel` suffices). -/
def digitsLEAux : Nat → Nat → List Nat
  | 0, _ => []
  | fuel + 1, n => if n < 10 then [n] else n % 10 :: digitsLEAux fuel (n / 10)

def digitsLE (n : Nat) : List Nat := digitsLEAux (n + 1) n

def digitChr (d : Nat) : Char := Char.ofNat ('0'.toNat + d)

/-- Big-endian decimal digit characters of a natural number
(the way `str` renders a `Decimal` coefficient: no leading zeros,
`"0"` for zero). -/
def natChars (n : Nat) : PyStr := (digitsLE n).reverse.map digitChr

/-- Value of a big-endian digit-char list (the way `Decimal` reads a
digit run). -/
def valBE (s : PyStr) : Nat := s.foldl (fun a c => 10 * a + charVal c) 0

def valDigitsBE (l : List Nat) : Nat := l.foldl (fun a d => 10 * a + d) 0

def ofDigitsLE (l : List Nat) : Nat := l.foldr (fun d acc => d + 10 * acc) 0

/-! ## Python `Decimal`, as far as the repository uses it

A decimal value is a sign, a coefficient and a scale (the number of
fractional digits; Python's exponent is the negated scale).  The sign
of zero is tracked, as `Decimal` does. -/
structure PyDec where
  neg : Bool
  mant : Nat
  scale : Nat
  deriving DecidableEq, Repr

/-- Leading `+`/`-` sign of a numeric literal. -/
def parseSign : PyStr → Bool × PyStr
  | [] => (false, [])
  | c :: r =>
    if c = '+' then (false, r)
    else if c = '-' then (true, r)
    else (false, c :: r)

/-- Split on a separator character (Python `str.split(sep)`). -/
def splitCh (sep : Char) : PyStr → List PyStr
  | [] => [[]]
  | c :: rest =>
    let r := splitCh sep rest
    if c = sep then [] :: r
    else
      match r with
      | [] => [[c]]
      | h :: t => (c :: h) :: t

/-- Digits-and-point part of a `Decimal` literal. -/
def parseDecCore (neg : Bool) (rest : PyStr) : Option PyDec :=
  match splitCh '.' rest with
  | [i] =>
    if i ≠ [] ∧ i.all isDigitCh then some ⟨neg, valBE i, 0⟩ else none
  | [i, f] =>
    if (i ≠ [] ∨ f ≠ []) ∧ i.all isDigitCh ∧ f.all isDigitCh then
      some ⟨neg, valBE (i ++ f), f.length⟩
    else none
  | _ => none

/-- `Decimal(s)` on the grammar `[+|-] digits* [. digits*]` with at
least one digit (the only literal forms the repository's cleaned-up
amount strings can take). -/
def parseDec (s : PyStr) : Option PyDec :=
  parseDecCore (parseSign s).1 (parseSign s).2

/-- Round-half-even division (the `ROUND_HALF_EVEN` default of
`Decimal.quantize`), on the coefficient magnitude. -/
def halfEvenDiv (n d : Nat) : Nat :=
  let q := n / d
  let r := n % d
  if 2 * r < d then q
  else if d < 2 * r then q + 1
  else if q % 2 = 0 then q else q + 1

/-- `x.quantize(Decimal("0.01"))`: rescale to two fractional digits. -/
def quantize2 (x : PyDec) : PyDec :=
  if x.scale ≤ 2 then ⟨x.neg, x.mant * 10 ^ (2 - x.scale), 2⟩
  else ⟨x.neg, halfEvenDiv x.mant (10 ^ (x.scale - 2)), 2⟩

/-- Zero-pad a digit rendering on the left to `k` characters. -/
def padChars (k n : Nat) : PyStr :=
  List.replicate (k - (natChars n).length) '0' ++ natChars n

/-- Exactly-two-digit rendering of `n < 100`. -/
def pad2 (n : Nat) : PyStr := [digitChr (n / 10 % 10), digitChr (n % 10)]

/-- `str(d)` for a `Decimal` with scale at most a few digits (the
repository only renders scales 0 and 2; no scientific notation arises). -/
def strDec (x : PyDec) : PyStr :=
  (if x.neg then ['-'] else []) ++
    match x.scale with
    | 0 => natChars x.mant
    | s + 1 =>
      natChars (x.mant / 10 ^ (s + 1)) ++ '.' :: padChars (s + 1) (x.mant % 10 ^ (s + 1))

/-- Numeric equality of `Decimal` values (`==`), sign of zero ignored. -/
def decEqb (a b : PyDec) : Bool :=
  (if a.neg then -(a.mant * 10 ^ b.scale : Int) else (a.mant * 10 ^ b.scale : Int))
    = (if b.neg then -(b.mant * 10 ^ a.scale : Int) else (b.mant * 10 ^ a.scale : Int))

/-- `Decimal` subtraction (exact; result exponent is the finer of the
two, and a zero result is positive). -/
def decSub (a b : PyDec) : PyDec :=
  let s := max a.scale b.scale
  let va : Int := (if a.neg then -1 else 1) * a.mant * 10 ^ (s - a.scale)
  let vb : Int := (if b.neg then -1 else 1) * b.mant * 10 ^ (s - b.scale)
  let v := va - vb
  ⟨decide (v < 0), v.natAbs, s⟩

/-! ## The amount normalizers

`_normalize_amount` appears twice with the same cleanup logic:
`finance_proxy/core/ledger.py` (and `backend/storers/sheets.py`) returns
the `Decimal`; `finance_proxy/core/ingest.py` (and
`finance-proxy/ingest.py`) returns its string. -/
/-- The comma/period cleanup shared by every `_normalize_amount`:
strip, drop spaces, then treat the comma as a thousands separator when a
period is also present and as the decimal point otherwise. -/
def amountClean (s : PyStr) : PyStr :=
  if (removeAllCh ' ' s).contains ',' ∧ (removeAllCh ' ' s).contains '.'
  then removeAllCh ',' (removeAllCh ' ' s)
  else replaceCh ',' '.' (removeAllCh ' ' s)

/-- `_normalize_amount` of `finance_proxy/core/ledger.py` /
`backend/storers/sheets.py` on a text cell: `Decimal` result. -/
def normalizeAmountDec (s : PyStr) : Option PyDec :=
  if pyStrip s = [] then none
  else (parseDec (amountClean (pyStrip s))).map quantize2

/-- `_normalize_amount` of the ingest modules: same cleanup, rendered
back to a string. -/
def normalizeAmountStr (s : PyStr) : Option PyStr :=
  (normalizeAmountDec s).map strDec

/-- `_normalize_text` of `finance_proxy/core/ledger.py`:
whitespace-collapse only (no lowercasing). -/
def normTextFP (s : PyStr) : PyStr := collapseWs s

/-- `_normalize_text` of `backend/storers/sheets.py`:
whitespace-collapse and lowercase. -/
def normTextB (s : PyStr) : PyStr := pyLower (collapseWs s)

/-- `_amounts_match` of `finance_proxy/core/ledger.py`. -/
def amountsMatchFP (l r : PyStr) : Bool :=
  match normalizeAmountDec l, normalizeAmountDec r with
  | some a, some b => decEqb a b
  | _, _ => pyLower (normTextFP l) = pyLower (normTextFP r)

/-- `_amounts_match` of `backend/storers/sheets.py`. -/
def amountsMatchB (l r : PyStr) : Bool :=
  match normalizeAmountDec l, normalizeAmountDec r with
  | some a, some b => decEqb a b
  | _, _ => normTextB l = normTextB r

/-- The `isinstance(value, Decimal)` branch of the ledger's
`_normalize_amount`: re-quantize an already-decimal value. -/
def normalizeAmountDecOfDec (d : PyDec) : PyDec := quantize2 d

/-! ## Separator conventions for amounts (spec §4.1, claim C8)

An amount that denotes `[-] n . c` (units `n`, two cent digits `c`) can
be written with several separator conventions; `renderAmt` produces the
textual form for each. -/
/-- Insert `sep` after every third character of a reversed digit run. -/
def group3Rev (sep : Char) : PyStr → PyStr
  | a :: b :: c :: rest =>
    if rest.isEmpty then [a, b, c]
    else a :: b :: c :: sep :: group3Rev sep rest
  | l => l

/-- Thousands-grouping of a digit run with separator `sep`. -/
def group3 (sep : Char) (s : PyStr) : PyStr := (group3Rev sep s.reverse).reverse

/-- Separator conventions: decimal point `.` or `,`, thousands grouping
by nothing, space, comma (with `.` decimals) or period (with `,`
decimals — the European form the §4.1 heuristic misreads). -/
inductive AmtStyle
  | plain
  | commaDec
  | spaceDot
  | spaceComma
  | commaDot
  | dotComma
  deriving DecidableEq, Repr

open AmtStyle

/-- Render value `[-] n . c` (with `c < 100`) under a convention. -/
def renderAmt (st : AmtStyle) (neg : Bool) (n c : Nat) : PyStr :=
  (if neg then ['-'] else []) ++
    (match st with
     | plain | commaDec => natChars n
     | spaceDot | spaceComma => group3 ' ' (natChars n)
     | commaDot => group3 ',' (natChars n)
     | dotComma => group3 '.' (natChars n)) ++
    (match st with
     | plain | spaceDot | commaDot => '.'
     | commaDec | spaceComma | dotComma => ',') :: pad2 c

/-- Decimal-separator character of a style. -/
def styleDecSep : AmtStyle → Char
  | AmtStyle.plain | AmtStyle.spaceDot | AmtStyle.commaDot => '.'
  | AmtStyle.commaDec | AmtStyle.spaceComma | AmtStyle.dotComma => ','

/-- Grouped integer part of a style. -/
def styleGroup : AmtStyle → Nat → PyStr
  | AmtStyle.plain, n | AmtStyle.commaDec, n => natChars n
  | AmtStyle.spaceDot, n | AmtStyle.spaceComma, n => group3 ' ' (natChars n)
  | AmtStyle.commaDot, n => group3 ',' (natChars n)
  | AmtStyle.dotComma, n => group3 '.' (natChars n)

/-! ## Dates

`_parse_date` / `_normalize_date` of the ledger modules and
`_normalize_date` of the ingest modules: ISO first, then an ordered
format list.  A `strptime` pattern like `%d/%m/%Y` is modelled by
splitting on the separator and matching each field against the exact
regex CPython compiles for the directive (`%Y` is `\d\d\d\d`, `%m` is
`1[0-2]|0[1-9]|[1-9]`, `%d` is `3[01]|[12]\d|0[1-9]|[1-9]| [1-9]`);
the split is exact because no directive's regex matches the separator,
so every alternative must end at it.  Calendar validation is as
`datetime` performs it. -/
structure PyDate where
  y : Nat
  m : Nat
  d : Nat
  deriving DecidableEq, Repr

def isLeap (y : Nat) : Bool := (y % 4 = 0 ∧ y % 100 ≠ 0) ∨ y % 400 = 0

def daysInMonth (y m : Nat) : Nat :=
  if m = 2 then (if isLeap y then 29 else 28)
  else if m = 4 ∨ m = 6 ∨ m = 9 ∨ m = 11 then 30
  else 31

def validDate (y m d : Nat) : Bool :=
  1 ≤ y ∧ y ≤ 9999 ∧ 1 ≤ m ∧ m ≤ 12 ∧ 1 ≤ d ∧ d ≤ daysInMonth y m

def mkDate (y m d : Nat) : Option PyDate :=
  if validDate y m d then some ⟨y, m, d⟩ else none

/-- The `%Y` directive: exactly four digits (`\d\d\d\d`). -/
def yearField : PyStr → Option Nat
  | [a, b, c, d] =>
    if isDigitCh a ∧ isDigitCh b ∧ isDigitCh c ∧ isDigitCh d then
      some (valBE [a, b, c, d])
    else none
  | _ => none

/-- The `%m` directive: `1[0-2]|0[1-9]|[1-9]`. -/
def monthField : PyStr → Option Nat
  | [a, b] =>
    if a = '1' ∧ (b = '0' ∨ b = '1' ∨ b = '2') then some (valBE [a, b])
    else if a = '0' ∧ isDigitCh b ∧ b ≠ '0' then some (valBE [a, b])
    else none
  | [a] => if isDigitCh a ∧ a ≠ '0' then some (charVal a) else none
  | _ => none

/-- The `%d` directive: `3[01]|[12]\d|0[1-9]|[1-9]| [1-9]` (note the
space-padded single-digit alternative). -/
def dayField : PyStr → Option Nat
  | [a, b] =>
    if a = '3' ∧ (b = '0' ∨ b = '1') then some (valBE [a, b])
    else if (a = '1' ∨ a = '2') ∧ isDigitCh b then some (valBE [a, b])
    else if a = '0' ∧ isDigitCh b ∧ b ≠ '0' then some (valBE [a, b])
    else if a = ' ' ∧ isDigitCh b ∧ b ≠ '0' then some (charVal b)
    else none
  | [a] => if isDigitCh a ∧ a ≠ '0' then some (charVal a) else none
  | _ => none

/-- `datetime.fromisoformat` on calendar dates (`YYYY-MM-DD`,
zero-padded; time-of-day suffixes are outside the modelled grammar). -/
def fromIsoDate (s : PyStr) : Option PyDate :=
  match splitCh '-' s with
  | [a, b, c] =>
    if a.length = 4 ∧ b.length = 2 ∧ c.length = 2 ∧
        a.all isDigitCh ∧ b.all isDigitCh ∧ c.all isDigitCh then
      mkDate (valBE a) (valBE b) (valBE c)
    else none
  | _ => none

inductive DOrd
  | ymd
  | dmy
  | mdy
  deriving DecidableEq, Repr

/-- One three-field `strptime` pattern (`%Y<sep>%m<sep>%d` etc.). -/
def strptime3 (sep : Char) (ord : DOrd) (s : PyStr) : Option PyDate :=
  match splitCh sep s with
  | [a, b, c] =>
    match ord with
    | DOrd.ymd =>
      match yearField a, monthField b, dayField c with
      | some y, some m, some d => mkDate y m d
      | _, _, _ => none
    | DOrd.dmy =>
      match dayField a, monthField b, yearField c with
      | some d, some m, some y => mkDate y m d
      | _, _, _ => none
    | DOrd.mdy =>
      match monthField a, dayField b, yearField c with
      | some m, some d, some y => mkDate y m d
      | _, _, _ => none
  | _ => none

def tryFormats : List (Char × DOrd) → PyStr → Option PyDate
  | [], _ => none
  | (sep, ord) :: rest, s =>
    match strptime3 sep ord s with
    | some d => some d
    | none => tryFormats rest s

/-- `_DATE_FORMATS` of `finance_proxy/core/ledger.py` and
`backend/storers/sheets.py`. -/
def ledgerFormats : List (Char × DOrd) :=
  [('-', DOrd.ymd), ('/', DOrd.ymd), ('/', DOrd.dmy), ('/', DOrd.mdy),
   ('-', DOrd.dmy), ('-', DOrd.mdy)]

/-- `_DATE_FORMATS` of the ingest modules (adds `%d.%m.%Y`). -/
def ingestFormats : List (Char × DOrd) :=
  [('-', DOrd.ymd), ('/', DOrd.ymd), ('/', DOrd.dmy), ('.', DOrd.dmy),
   ('/', DOrd.mdy), ('-', DOrd.dmy), ('-', DOrd.mdy)]

/-- `_parse_date` of the ledger modules, on a text value. -/
def parseDateL (s : PyStr) : Option PyDate :=
  if pyStrip s = [] then none
  else
    match fromIsoDate (pyStrip s) with
    | some d => some d
    | none => tryFormats ledgerFormats (pyStrip s)

/-- `_normalize_date` of the ledger modules (`None → ""`,
parsable → ISO, otherwise the stripped text verbatim). -/
def normalizeDateL : Option PyStr → PyStr
  | none => []
  | some s =>
    match parseDateL s with
    | some d => padChars 4 d.y ++ '-' :: (pad2 d.m ++ '-' :: pad2 d.d)
    | none => pyStrip s

def fmtIsoDate (dt : PyDate) : PyStr :=
  padChars 4 dt.y ++ '-' :: (pad2 dt.m ++ '-' :: pad2 dt.d)

/-- `get_monthly_sheet_name` of `finance_proxy/core/ledger.py`:
`"YYYY-MM"` of the parsed date, falling back to the current day. -/
def monthlySheetName (now : PyDate) (v : Option PyStr) : PyStr :=
  match v with
  | none => padChars 4 now.y ++ '-' :: pad2 now.m
  | some s =>
    match parseDateL s with
    | some d => padChars 4 d.y ++ '-' :: pad2 d.m
    | none => padChars 4 now.y ++ '-' :: pad2 now.m

/-- `_normalize_date` of the ingest modules (`None`/blank/unparsable →
`None`, otherwise the ISO string). -/
def normalizeDateI (v : Option PyStr) : Option PyStr :=
  match v with
  | none => none
  | some s =>
    if s = [] then none
    else if pyStrip s = [] then none
    else
      match fromIsoDate (pyStrip s) with
      | some d => some (fmtIsoDate d)
      | none =>
        match tryFormats ingestFormats (pyStrip s) with
        | some d => some (fmtIsoDate d)
        | none => none

def intTruthy : Option Int → Bool
  | none => false
  | some k => k ≠ 0

/-- `_month_anchor` of `finance_proxy/core/ledger.py`. -/
def monthAnchor (now : PyDate) (month year : Option Int) (dv : Option PyStr) :
    Option PyStr :=
  match dv with
  | some s =>
    if s ≠ [] then some s
    else monthAnchorNoDate now month year
  | none => monthAnchorNoDate now month year
where
  monthAnchorNoDate (now : PyDate) (month year : Option Int) : Option PyStr :=
    if intTruthy month ∨ intTruthy year then
      let yv : Int := if intTruthy year then (year.getD 0) else (now.y : Int)
      let mv : Int := if intTruthy month then (month.getD 0) else (now.m : Int)
      if 1 ≤ yv ∧ yv ≤ 9999 ∧ 1 ≤ mv ∧ mv ≤ 12 then
        some (fmtIsoDate ⟨yv.toNat, mv.toNat, 1⟩)
      else none
    else some (fmtIsoDate now)

/-! ## The external tabular store and `SheetsLedgerStore`

The Google Sheets collaborator is modelled functionally: a spreadsheet
is a locale and a list of named sheets, each a grid of text cells.
`values().get(range="A:D")` returns each row truncated to four cells
with trailing empty cells and trailing empty rows omitted, as the API
does; `append` adds a row after the last one; creating a sheet and
writing its `A1` header row yields a one-row grid; data-validation
requests do not change cell values. -/
abbrev Grid := List (List PyStr)

structure Ledger where
  locale : PyStr
  sheets : List (PyStr × Grid)
  deriving DecidableEq, Repr

def sheetTitles (st : Ledger) : List PyStr := st.sheets.map Prod.fst

def getGrid (st : Ledger) (name : PyStr) : Grid :=
  match st.sheets.find? (fun p => p.1 = name) with
  | some p => p.2
  | none => []

def rtrimEmptyCells (r : List PyStr) : List PyStr :=
  (r.reverse.dropWhile (· = ([] : PyStr))).reverse

/-- `values().get(range="'sheet'!A:D")`. -/
def valuesGetAD (g : Grid) : Grid :=
  ((g.map (fun r => rtrimEmptyCells (r.take 4))).reverse.dropWhile
    (· = ([] : List PyStr))).reverse

def appendRowTo (st : Ledger) (name : PyStr) (row : List PyStr) : Ledger :=
  { st with sheets := st.sheets.map (fun p => if p.1 = name then (p.1, p.2 ++ [row]) else p) }

def addSheetWithHeader (st : Ledger) (name : PyStr) (headers : List PyStr) : Ledger :=
  { st with sheets := st.sheets ++ [(name, [headers])] }

/-- `DEFAULT_HEADERS` of `finance_proxy/core/ledger.py`. -/
def DEFAULT_HEADERS_FP : List PyStr :=
  [pys "Date", pys "Description", pys "Amount", pys "Category",
   pys "Machine Pillar", pys "Integrity Filter", pys "Root Trigger", pys "Notes"]

/-- `DEFAULT_HEADERS` of `backend/storers/sheets.py`. -/
def DEFAULT_HEADERS_B : List PyStr :=
  [pys "Datum", pys "Beskrivning", pys "Kategori", pys "Belopp"]

/-- `_row_is_header` of `finance_proxy/core/ledger.py`: requires at
least eight cells matching the eight canonical headers. -/
def rowIsHeaderFP (row : List PyStr) : Bool :=
  if row.length < 8 then false
  else (row.take 8).map (fun c => pyLower (normTextFP c))
    = DEFAULT_HEADERS_FP.map (fun c => pyLower (normTextFP c))

/-- `_row_is_header` of `backend/storers/sheets.py`. -/
def rowIsHeaderB (row : List PyStr) : Bool :=
  if row.length < 4 then false
  else (row.take 4).map normTextB = DEFAULT_HEADERS_B.map normTextB

/-- `SheetsLedgerStore.is_duplicate` of `finance_proxy/core/ledger.py`,
acting on the target sheet's grid. -/
def isDuplicateFP (grid : Grid) (dateValue amount description : PyStr) : Bool :=
  let values := valuesGetAD grid
  let start : Nat :=
    match values with
    | [] => 0
    | v :: _ => if rowIsHeaderFP v then 1 else 0
  let targetDate := normalizeDateL (some dateValue)
  let targetDesc := normTextFP description
  (values.drop start).any (fun row =>
    let rowDate := if 0 < row.length then normalizeDateL (some (row.getD 0 [])) else []
    let rowDesc := if 1 < row.length then normTextFP (row.getD 1 []) else []
    let rowAmount := if 3 < row.length then row.getD 3 [] else []
    rowDate = targetDate ∧ rowDesc = targetDesc ∧ amountsMatchFP rowAmount amount)

/-- `SheetsLedgerStore.is_duplicate` of `backend/storers/sheets.py`. -/
def isDuplicateB (grid : Grid) (dateValue amount description : PyStr) : Bool :=
  let values := valuesGetAD grid
  let start : Nat :=
    match values with
    | [] => 0
    | v :: _ => if rowIsHeaderB v then 1 else 0
  let targetDate := normalizeDateL (some dateValue)
  let targetDesc := normTextB description
  (values.drop start).any (fun row =>
    let rowDate := if 0 < row.length then normalizeDateL (some (row.getD 0 [])) else []
    let rowDesc := if 1 < row.length then normTextB (row.getD 1 []) else []
    let rowAmount := if 3 < row.length then row.getD 3 [] else []
    rowDate = targetDate ∧ rowDesc = targetDesc ∧ amountsMatchB rowAmount amount)

/-- `_ensure_month_sheet`: create the tab with its header row (and, in
the `finance_proxy` variant, validation rules, which do not affect cell
values) only when absent; returns whether creation occurred. -/
def ensureMonthSheet (headers : List PyStr) (st : Ledger) (monthName : PyStr)
    (sheetNames : List PyStr) : Ledger × Bool :=
  if sheetNames.contains monthName then (st, false)
  else (addSheetWithHeader st monthName headers, true)

/-- `date_value = _normalize_date(date_value) or datetime.now().strftime("%Y-%m-%d")`. -/
def resolvedDateL (now : PyDate) (dateValue : Option PyStr) : PyStr :=
  if normalizeDateL dateValue = [] then fmtIsoDate now else normalizeDateL dateValue

/-- `SheetsLedgerStore.append_transaction` of
`finance_proxy/core/ledger.py`.  Returns the new store state and the
`status` field of the response. -/
def appendTransactionFP (st : Ledger) (now : PyDate)
    (amount description category : PyStr) (dateValue : Option PyStr)
    (machinePillar integrityFilter rootTrigger notes : PyStr) :
    Ledger × PyStr :=
  let desc := if pyStrip description = [] then pys "Unknown" else pyStrip description
  let cat := if pyStrip category = [] then pys "Uncategorized" else pyStrip category
  let dv := resolvedDateL now dateValue
  let sheetNames := sheetTitles st
  let monthName := monthlySheetName now (some dv)
  let created := (ensureMonthSheet DEFAULT_HEADERS_FP st monthName sheetNames).2
  let st1 := (ensureMonthSheet DEFAULT_HEADERS_FP st monthName sheetNames).1
  if ¬created ∧ isDuplicateFP (getGrid st1 monthName) dv amount desc then
    (st1, pys "duplicate")
  else
    (appendRowTo st1 monthName
      [dv, desc, amount, cat, machinePillar, integrityFilter, rootTrigger, notes],
     pys "appended")

/-- `_MONTH_MAPS` of `backend/storers/sheets.py`. -/
def monthListSv : List PyStr :=
  [pys "Januari", pys "Februari", pys "Mars", pys "April", pys "Maj", pys "Juni",
   pys "Juli", pys "Augusti", pys "September", pys "Oktober", pys "November",
   pys "December"]

def monthListIt : List PyStr :=
  [pys "Gennaio", pys "Febbraio", pys "Marzo", pys "Aprile", pys "Maggio",
   pys "Giugno", pys "Luglio", pys "Agosto", pys "Settembre", pys "Ottobre",
   pys "Novembre", pys "Dicembre"]

def monthListEn : List PyStr :=
  [pys "January", pys "February", pys "March", pys "April", pys "May", pys "June",
   pys "July", pys "August", pys "September", pys "October", pys "November",
   pys "December"]

/-- `_localized_month_name` of `backend/storers/sheets.py`. -/
def localizedMonthName (locale : PyStr) (now : PyDate) (v : Option PyStr) : PyStr :=
  let lang := if locale = [] then pys "en"
    else pyLower ((splitCh '_' locale).headD [])
  let monthList :=
    if lang = pys "sv" then monthListSv
    else if lang = pys "it" then monthListIt
    else monthListEn
  let stamp :=
    match v with
    | none => now
    | some s =>
      match parseDateL s with
      | some d => d
      | none => now
  monthList.getD (stamp.m - 1) []

/-- `SheetsLedgerStore.append_transaction` of
`backend/storers/sheets.py`. -/
def appendTransactionB (st : Ledger) (now : PyDate)
    (amount description category : PyStr) (dateArg : Option PyStr) :
    Ledger × PyStr :=
  let desc := if pyStrip description = [] then pys "Unknown" else pyStrip description
  let cat := if pyStrip category = [] then pys "Uncategorized" else pyStrip category
  let dv := resolvedDateL now dateArg
  let sheetNames := sheetTitles st
  let monthName := localizedMonthName st.locale now (some dv)
  let created := (ensureMonthSheet DEFAULT_HEADERS_B st monthName sheetNames).2
  let st1 := (ensureMonthSheet DEFAULT_HEADERS_B st monthName sheetNames).1
  if ¬created ∧ isDuplicateB (getGrid st1 monthName) dv amount desc then
    (st1, pys "duplicate")
  else
    (appendRowTo st1 monthName [dv, desc, cat, amount], pys "appended")

/-- One returned row of `list_transactions`. -/
structure TxRow where
  rowId : Nat
  date : PyStr
  description : PyStr
  amount : PyStr
  category : PyStr
  machinePillar : PyStr
  integrityFilter : PyStr
  rootTrigger : PyStr
  notes : PyStr
  deriving DecidableEq, Repr

structure ListResult where
  month : PyStr
  count : Nat
  transactions : List TxRow
  deriving DecidableEq, Repr

/-- `SheetsLedgerStore.list_transactions` of
`finance_proxy/core/ledger.py`. -/
def listTransactionsFP (st : Ledger) (now : PyDate)
    (month year : Option Int) (date dateValue : Option PyStr) : ListResult :=
  let dv := match dateValue with | none => date | some s => some s
  let anchor := monthAnchor now month year dv
  let monthName := monthlySheetName now anchor
  if ¬ (sheetTitles st).contains monthName then
    ⟨monthName, 0, []⟩
  else
    let values := valuesGetAD (getGrid st monthName)
    let start : Nat :=
      match values with
      | [] => 0
      | v :: _ => if rowIsHeaderFP v then 1 else 0
    let txs := ((values.drop start).enum).filterMap (fun p =>
      let i := p.1
      let row := p.2
      let rowDate := if 0 < row.length then normalizeDateL (some (row.getD 0 [])) else []
      let rowDesc := if 1 < row.length then pyStrip (row.getD 1 []) else []
      let rowAmount := if 2 < row.length then pyStrip (row.getD 2 []) else []
      let rowCat := if 3 < row.length then pyStrip (row.getD 3 []) else []
      let rowPillar := if 4 < row.length then pyStrip (row.getD 4 []) else []
      let rowIntegrity := if 5 < row.length then pyStrip (row.getD 5 []) else []
      let rowTrigger := if 6 < row.length then pyStrip (row.getD 6 []) else []
      let rowNotes := if 7 < row.length then pyStrip (row.getD 7 []) else []
      if rowDate = [] ∧ rowDesc = [] ∧ rowCat = [] ∧ rowAmount = [] then none
      else some (⟨start + i + 1, rowDate, rowDesc, rowAmount, rowCat,
        rowPillar, rowIntegrity, rowTrigger, rowNotes⟩ : TxRow))
    ⟨monthName, txs.length, txs⟩

/-! ## Categories and the commit path -/
def UNCATEGORIZED : PyStr := pys "Uncategorized"

/-- `FIXED_CATEGORIES` of `finance_proxy/core/categories.py`. -/
def FIXED_CATEGORIES : List PyStr :=
  [pys "Income", pys "Housing", pys "Utilities", pys "Groceries", pys "Dining",
   pys "Transport", pys "Travel", pys "Shopping", pys "Subscriptions",
   pys "Health", pys "Education", pys "Business", pys "Taxes", pys "Fees",
   pys "Transfers", pys "Overföring", pys "Tithe", pys "Charity",
   pys "Savings/Investments", UNCATEGORIZED]

/-- `_normalize_category` of `finance_proxy/main.py`: first
case-insensitive member match, else the sentinel. -/
def normalizeCategory (v : Option PyStr) : PyStr :=
  match v with
  | none => UNCATEGORIZED
  | some s =>
    if s = [] then UNCATEGORIZED
    else
      match FIXED_CATEGORIES.find? (fun cat => pyLower (pyStrip s) = pyLower cat) with
      | some cat => cat
      | none => UNCATEGORIZED

/-- Python `a or b` on optional strings (`item.category_approved or
item.category_suggested`). -/
def pyOrStr (a b : Option PyStr) : Option PyStr :=
  match a with
  | some s => if s ≠ [] then some s else b
  | none => b

/-- The `/ingest/commit` handler's per-item path
(`finance_proxy/main.py`): normalize the category, then call
`append_transaction` with it. -/
def ingestCommitOne (st : Ledger) (now : PyDate)
    (dateS descS amountS : PyStr) (approved suggested : Option PyStr) :
    Ledger × PyStr :=
  appendTransactionFP st now amountS descS
    (normalizeCategory (pyOrStr approved suggested)) (some dateS) [] [] [] []

/-! ## The CSV parsers (`_header_map`, `_find_header`, `_parse_csv`)

Two variants: the Swedbank-restricted core parser
(`finance_proxy/core/ingest.py`, column accesses length-guarded) and
the legacy parser (`finance-proxy/ingest.py`, unguarded accesses
modelled in `Except`).  The CSV decoding layer (encodings, dialect
sniffing) is the model's input boundary: a file is given as its list of
cell rows.  The core alias table's metadata-only keys (reference,
balance, clearing, account, product) never influence row extraction or
header criticality and are not modelled. -/
structure HdrMapping where
  date : Option Nat
  description : Option Nat
  amount : Option Nat
  debit : Option Nat
  credit : Option Nat
  currency : Option Nat
  deriving DecidableEq, Repr

def emptyMapping : HdrMapping := ⟨none, none, none, none, none, none⟩

def mappingNonempty (m : HdrMapping) : Bool :=
  m.date.isSome ∨ m.description.isSome ∨ m.amount.isSome ∨
    m.debit.isSome ∨ m.credit.isSome ∨ m.currency.isSome

/-- `_header_map` of `finance_proxy/core/ingest.py` (restricted
Swedbank aliases; no debit/credit aliases exist). -/
def headerMapCore (headers : List PyStr) : HdrMapping :=
  headers.enum.foldl (fun m p =>
    let h := pyLower (pyStrip p.2)
    { date := if h = pys "bokföringsdag" ∨ h = pys "transaktionsdag"
        then some p.1 else m.date,
      description := if h = pys "beskrivning" then some p.1 else m.description,
      amount := if h = pys "belopp" then some p.1 else m.amount,
      debit := m.debit,
      credit := m.credit,
      currency := if h = pys "valuta" then some p.1 else m.currency })
    emptyMapping

/-- `_header_map` of `finance-proxy/ingest.py`. -/
def headerMapLegacy (headers : List PyStr) : HdrMapping :=
  headers.enum.foldl (fun m p =>
    let h := pyLower (pyStrip p.2)
    { date := if h = pys "date" ∨ h = pys "datum" ∨ h = pys "transaction date" ∨
          h = pys "booked" ∨ h = pys "bokforingsdag" then some p.1 else m.date,
      description := if h = pys "description" ∨ h = pys "beskrivning" ∨
          h = pys "text" ∨ h = pys "merchant" ∨ h = pys "details"
        then some p.1 else m.description,
      amount := if h = pys "amount" ∨ h = pys "belopp" ∨ h = pys "sum" ∨
          h = pys "total" then some p.1 else m.amount,
      debit := if h = pys "debit" ∨ h = pys "withdrawal" ∨ h = pys "ut" ∨
          h = pys "debet" then some p.1 else m.debit,
      credit := if h = pys "credit" ∨ h = pys "deposit" ∨ h = pys "in" ∨
          h = pys "kredit" then some p.1 else m.credit,
      currency := if h = pys "currency" ∨ h = pys "valuta"
        then some p.1 else m.currency })
    emptyMapping

def hasCritical (m : HdrMapping) : Bool :=
  m.date.isSome ∧ m.amount.isSome ∧ m.description.isSome

/-- `_find_header` of `finance_proxy/core/ingest.py`: first row among
the first 20 whose mapping covers date, amount and description. -/
def findHeaderCore (rows : List (List PyStr)) : Nat × HdrMapping :=
  match (rows.take 20).enum.find? (fun p => hasCritical (headerMapCore p.2)) with
  | some p => (p.1, headerMapCore p.2)
  | none => (0, emptyMapping)

structure RawTx where
  date : Option PyStr
  description : Option PyStr
  amount : Option PyStr
  currency : Option PyStr
  sourceRow : Nat
  deriving DecidableEq, Repr

def normalizeAmountStrOpt : Option PyStr → Option PyStr
  | none => none
  | some s => normalizeAmountStr s

/-- `str(Decimal(credit_norm) - Decimal(debit_norm))` over the
canonical strings produced by `_normalize_amount` (or `"0"`). -/
def debitCreditAmount (debit credit : Option PyStr) : PyStr :=
  let dn := (normalizeAmountStrOpt debit).getD (pys "0")
  let cn := (normalizeAmountStrOpt credit).getD (pys "0")
  strDec (decSub ((parseDec cn).getD ⟨false, 0, 0⟩) ((parseDec dn).getD ⟨false, 0, 0⟩))

def pyTruthyOpt : Option PyStr → Bool
  | none => false
  | some s => s ≠ []

/-- Guarded cell access `row[i] if i < len(row) else None`. -/
def cellOpt (row : List PyStr) (i : Nat) : Option PyStr :=
  if i < row.length then some (row.getD i []) else none

/-- Mapped-row extraction of the core `_parse_csv` (all accesses
length-guarded; the debit/credit fallback requires a truthy side). -/
def extractRowMappedCore (m : HdrMapping) (row : List PyStr) :
    Option PyStr × Option PyStr × Option PyStr × Option PyStr :=
  let dateVal := match m.date with
    | some i => cellOpt row i
    | none => none
  let descVal := match m.description with
    | some i => cellOpt row i
    | none => none
  let amountVal := match m.amount with
    | some i =>
      if i < row.length then some (row.getD i [])
      else
        let debit := match m.debit with | some j => cellOpt row j | none => none
        let credit := match m.credit with | some j => cellOpt row j | none => none
        if pyTruthyOpt debit ∨ pyTruthyOpt credit then
          some (debitCreditAmount debit credit)
        else none
    | none =>
      let debit := match m.debit with | some j => cellOpt row j | none => none
      let credit := match m.credit with | some j => cellOpt row j | none => none
      if pyTruthyOpt debit ∨ pyTruthyOpt credit then
        some (debitCreditAmount debit credit)
      else none
  let currencyVal := match m.currency with
    | some i => cellOpt row i
    | none => none
  (dateVal, descVal, amountVal, currencyVal)

/-- Positional fallback extraction (columns 0,1,2,3). -/
def extractRowPositional (row : List PyStr) :
    Option PyStr × Option PyStr × Option PyStr × Option PyStr :=
  (cellOpt row 0, cellOpt row 1, cellOpt row 2, cellOpt row 3)

/-- The non-blank-row filter `[row for row in reader if any(cell.strip()
for cell in row)]`. -/
def filterBlankRows (rows : List (List PyStr)) : List (List PyStr) :=
  rows.filter (fun r => r.any (fun c => pyStrip c ≠ []))

/-- `_parse_csv` of `finance_proxy/core/ingest.py`, from the decoded
cell rows (the `transactions` component). -/
def parseCsvCore (rows : List (List PyStr)) : List RawTx :=
  let rowsF := filterBlankRows rows
  if rowsF = [] then []
  else
    let hm := findHeaderCore rowsF
    let startIdx := hm.1 + 1
    (rowsF.drop startIdx).enum.map (fun p =>
      let e := if mappingNonempty hm.2 then extractRowMappedCore hm.2 p.2
        else extractRowPositional p.2
      ⟨e.1, e.2.1, e.2.2.1, e.2.2.2, startIdx + p.1 + 1⟩)

/-- `_CATEGORY_HINTS` of `finance_proxy/core/ingest.py`. -/
def categoryHintsCore : List (PyStr × List PyStr) :=
  [(pys "Housing", [pys "rent", pys "mortgage", pys "lease", pys "hyra"]),
   (pys "Utilities", [pys "electric", pys "electricity", pys "water", pys "internet",
     pys "phone", pys "wifi"]),
   (pys "Groceries", [pys "grocery", pys "supermarket", pys "ica", pys "coop",
     pys "lidl", pys "willys"]),
   (pys "Dining", [pys "restaurant", pys "cafe", pys "coffee", pys "bar",
     pys "pizza", pys "burger"]),
   (pys "Transport", [pys "uber", pys "taxi", pys "bus", pys "metro", pys "train",
     pys "sl", pys "tram"]),
   (pys "Travel", [pys "hotel", pys "flight", pys "airbnb", pys "booking",
     pys "ryanair", pys "sas"]),
   (pys "Shopping", [pys "amazon", pys "ikea", pys "h&m", pys "zara", pys "shop"]),
   (pys "Subscriptions", [pys "netflix", pys "spotify", pys "subscription",
     pys "adobe"]),
   (pys "Health", [pys "pharmacy", pys "doctor", pys "clinic", pys "gym"]),
   (pys "Education", [pys "course", pys "tuition", pys "udemy", pys "coursera"]),
   (pys "Business", [pys "invoice", pys "client", pys "office", pys "supplies"]),
   (pys "Taxes", [pys "tax", pys "skatt"]),
   (pys "Fees", [pys "fee", pys "charge", pys "commission"]),
   (pys "Tithe", [pys "church", pys "tithe", pys "tionde", pys "we are one church",
     pys "hillsong", pys "filadelfia"]),
   (pys "Charity", [pys "charity", pys "donation", pys "gift", pys "red cross",
     pys "unicef"]),
   (pys "Overföring", [pys "överföring", pys "overföring", pys "internal transfer",
     pys "balance movement", pys "account transfer", pys "egen överföring"]),
   (pys "Transfers", [pys "transfer", pys "bank", pys "swish"]),
   (pys "Savings/Investments", [pys "investment", pys "savings", pys "fund",
     pys "stock"]),
   (pys "Income", [pys "salary", pys "payroll", pys "income", pys "refund"])]

/-- `_CATEGORY_HINTS` of `finance-proxy/ingest.py` (no Tithe, Charity
or Overföring entries). -/
def categoryHintsLegacy : List (PyStr × List PyStr) :=
  [(pys "Housing", [pys "rent", pys "mortgage", pys "lease", pys "hyra"]),
   (pys "Utilities", [pys "electric", pys "electricity", pys "water", pys "internet",
     pys "phone", pys "wifi"]),
   (pys "Groceries", [pys "grocery", pys "supermarket", pys "ica", pys "coop",
     pys "lidl", pys "willys"]),
   (pys "Dining", [pys "restaurant", pys "cafe", pys "coffee", pys "bar",
     pys "pizza", pys "burger"]),
   (pys "Transport", [pys "uber", pys "taxi", pys "bus", pys "metro", pys "train",
     pys "sl", pys "tram"]),
   (pys "Travel", [pys "hotel", pys "flight", pys "airbnb", pys "booking",
     pys "ryanair", pys "sas"]),
   (pys "Shopping", [pys "amazon", pys "ikea", pys "h&m", pys "zara", pys "shop"]),
   (pys "Subscriptions", [pys "netflix", pys "spotify", pys "subscription",
     pys "adobe"]),
   (pys "Health", [pys "pharmacy", pys "doctor", pys "clinic", pys "gym"]),
   (pys "Education", [pys "course", pys "tuition", pys "udemy", pys "coursera"]),
   (pys "Business", [pys "invoice", pys "client", pys "office", pys "supplies"]),
   (pys "Taxes", [pys "tax", pys "skatt"]),
   (pys "Fees", [pys "fee", pys "charge", pys "commission"]),
   (pys "Transfers", [pys "transfer", pys "bank", pys "swish"]),
   (pys "Savings/Investments", [pys "investment", pys "savings", pys "fund",
     pys "stock"]),
   (pys "Income", [pys "salary", pys "payroll", pys "income", pys "refund"])]

/-- Python substring test (`keyword in text`). -/
def isSubstr (pat : PyStr) : PyStr → Bool
  | [] => pat.isEmpty
  | c :: rest => pat.isPrefixOf (c :: rest) || isSubstr pat rest

/-- `Decimal(str(amount)) > 0` (with parse failure swallowed). -/
def amountPositive : Option PyStr → Bool
  | none => false
  | some s =>
    match parseDec (pyStrip s) with
    | some d => ¬d.neg ∧ 0 < d.mant
    | none => false

/-- `_suggest_category_heuristic`: first keyword hit in table order,
else "Income" for positive amounts, else the sentinel. -/
def suggestCategoryHeuristic (hints : List (PyStr × List PyStr))
    (description : PyStr) (amount : Option PyStr) : PyStr :=
  let text := pyLower (collapseWs description)
  match hints.find? (fun p => p.2.any (fun kw => isSubstr kw text)) with
  | some p => p.1
  | none => if amountPositive amount then pys "Income" else UNCATEGORIZED

/-- `_derive_pillar` of `finance_proxy/core/ingest.py`. -/
def derivePillar (category : PyStr) : PyStr :=
  let c := pyStrip (pyLower category)
  if c = pys "overföring" ∨ c = pys "transfers" then pys "Internal"
  else if c = pys "rent" ∨ c = pys "housing" ∨ c = pys "utilities" ∨
      c = pys "groceries" ∨ c = pys "transport" ∨ c = pys "health" then pys "Needs"
  else if c = pys "dining" ∨ c = pys "shopping" ∨ c = pys "subscriptions" ∨
      c = pys "travel" then pys "Wants"
  else if c = pys "tithe" ∨ c = pys "charity" then pys "Faith"
  else if c = pys "savings/investments" ∨ c = pys "education" ∨
      c = pys "business" then pys "Growth"
  else []

/-- `_normalize_merchant`: lowercase, digits and non-letter characters
to spaces (character-wise; run-collapsing happens in the final join),
whitespace-collapsed. -/
def normalizeMerchant (v : PyStr) : PyStr :=
  let l := pyLower (collapseWs v)
  let l := l.map (fun c => if isDigitCh c then ' ' else c)
  let l := l.map (fun c => if ('a' ≤ c ∧ c ≤ 'z') ∨ isWs c then c else ' ')
  collapseWs l

structure NormTx where
  date : PyStr
  description : PyStr
  amount : PyStr
  currency : Option PyStr
  merchantRaw : PyStr
  merchantNormalized : PyStr
  categorySuggested : PyStr
  machinePillar : PyStr
  integrityFilter : PyStr
  rootTrigger : PyStr
  notes : PyStr
  needsReview : Bool
  sourceRow : Nat
  deriving DecidableEq, Repr

/-- One row of the core `parse_statement` normalization loop
(`finance_proxy/core/ingest.py`; the heuristic classifier is called
directly). -/
def normalizeRowCore (fileCurrency : Option PyStr) (r : RawTx) : Option NormTx :=
  let dateValue := normalizeDateI r.date
  let amountValue := normalizeAmountStrOpt r.amount
  let description :=
    if collapseWs (r.description.getD []) = [] then pys "Unknown"
    else collapseWs (r.description.getD [])
  match dateValue, amountValue with
  | some dv, some av =>
    let category := suggestCategoryHeuristic categoryHintsCore description (some av)
    some
      { date := dv
        description := description
        amount := av
        currency := if pyTruthyOpt r.currency then r.currency else fileCurrency
        merchantRaw := description
        merchantNormalized := normalizeMerchant description
        categorySuggested := category
        machinePillar := derivePillar category
        integrityFilter := pys "Planned"
        rootTrigger := []
        notes := []
        needsReview := category = UNCATEGORIZED
        sourceRow := r.sourceRow }
  | _, _ => none

/-- The `transactions` component of the core `parse_statement` on a
decoded CSV (`fileCurrency` models the metadata-extracted currency). -/
def parseStatementCoreTx (fileCurrency : Option PyStr)
    (rows : List (List PyStr)) : List NormTx :=
  (parseCsvCore rows).filterMap (normalizeRowCore fileCurrency)

/-! ### The legacy parser (`finance-proxy/ingest.py`) -/
/-- Unguarded Python indexing: `row[i]` raises `IndexError` when out of
range. -/
def cellAt (row : List PyStr) (i : Nat) : Except Unit PyStr :=
  if i < row.length then Except.ok (row.getD i []) else Except.error ()

/-- The `amount_val` block of the legacy `_parse_csv` (no
`if debit or credit` guard: both blank still yields `str(Decimal("0") -
Decimal("0")) = "0"`). -/
def legacyAmountVal (m : HdrMapping) (row : List PyStr) :
    Except Unit (Option PyStr) :=
  match m.amount with
  | some i => (cellAt row i).map some
  | none => do
    let debit ← match m.debit with
      | some j => (cellAt row j).map some
      | none => Except.ok none
    let credit ← match m.credit with
      | some j => (cellAt row j).map some
      | none => Except.ok none
    Except.ok (some (debitCreditAmount debit credit))

/-- Mapped-row extraction of the legacy `_parse_csv`. -/
def extractRowMappedLegacy (m : HdrMapping) (row : List PyStr) :
    Except Unit (Option PyStr × Option PyStr × Option PyStr × Option PyStr) := do
  let dateVal ← match m.date with
    | some i => (cellAt row i).map some
    | none => Except.ok none
  let descVal ← match m.description with
    | some i => (cellAt row i).map some
    | none => Except.ok none
  let amountVal ← legacyAmountVal m row
  let currencyVal ← match m.currency with
    | some i => (cellAt row i).map some
    | none => Except.ok none
  Except.ok (dateVal, descVal, amountVal, currencyVal)

/-- `_parse_csv` of `finance-proxy/ingest.py` (header is always the
first non-blank row; `Except` models a raised `IndexError`). -/
def parseCsvLegacy (rows : List (List PyStr)) : Except Unit (List RawTx) :=
  let rowsF := filterBlankRows rows
  match rowsF with
  | [] => Except.ok []
  | header :: _ =>
    let m := headerMapLegacy header
    let startIdx := if mappingNonempty m then 1 else 0
    (rowsF.drop startIdx).enum.mapM (fun p =>
      if mappingNonempty m then
        (extractRowMappedLegacy m p.2).map (fun e =>
          (⟨e.1, e.2.1, e.2.2.1, e.2.2.2, startIdx + p.1 + 1⟩ : RawTx))
      else
        Except.ok (⟨cellOpt p.2 0, cellOpt p.2 1, cellOpt p.2 2, cellOpt p.2 3,
          startIdx + p.1 + 1⟩ : RawTx))

/-- One row of the legacy `parse_statement` normalization loop.  The
classification oracle (`suggest_category` tier 1) is modelled as its
outcome: `oracleCat` is the category the model call produced, when any;
`none` falls through to the deterministic heuristic, as the code does
on any model failure or non-matching response. -/
def normalizeRowLegacy (oracleCat : Option PyStr) (fileCurrency : Option PyStr)
    (r : RawTx) : Option NormTx :=
  let dateValue := normalizeDateI r.date
  let amountValue := normalizeAmountStrOpt r.amount
  let description :=
    if collapseWs (r.description.getD []) = [] then pys "Unknown"
    else collapseWs (r.description.getD [])
  match dateValue, amountValue with
  | some dv, some av =>
    let category := match oracleCat with
      | some c => c
      | none => suggestCategoryHeuristic categoryHintsLegacy description (some av)
    some
      { date := dv
        description := description
        amount := av
        currency := if pyTruthyOpt r.currency then r.currency else fileCurrency
        merchantRaw := description
        merchantNormalized := normalizeMerchant description
        categorySuggested := category
        machinePillar := []
        integrityFilter := []
        rootTrigger := []
        notes := []
        needsReview := category = UNCATEGORIZED
        sourceRow := r.sourceRow }
  | _, _ => none

/-- The `transactions` component of the legacy `parse_statement` on a
decoded CSV. -/
def parseStatementLegacyTx (oracleCat fileCurrency : Option PyStr)
    (rows : List (List PyStr)) : Except Unit (List NormTx) :=
  (parseCsvLegacy rows).map (fun raws =>
    raws.filterMap (normalizeRowLegacy oracleCat fileCurrency))

/-- Rational value of a modelled `Decimal`. -/
def decValQ (d : PyDec) : ℚ := (if d.neg then -1 else 1) * d.mant / 10 ^ d.scale

/-! ### PDF text extraction (`_parse_pdf`, identical in both ingest modules)

Per line: strip; skip blank; a regex search for a word-bounded date
token (4 digits dash 2 dash 2, or 2 digits sep 2 sep 4 with each sep one
of period, slash or dash); a regex findall for amount tokens (optional
sign, 1-3 digits, any number of groups of a period-or-comma plus 3
digits, then optionally a period-or-comma plus 2 digits); skip the line
if either result is empty; the
amount is `amount_matches[-1]`, the description is the line with the date
and that amount removed and `" -"` stripped.  Both regexes are
backtracking-free here (every suffix of the amount pattern after the
mandatory digits can match empty, and the two date alternatives are
disjoint at each start and have the same length), so greedy
left-to-right scanners are exact.  Word characters are modeled as ASCII
alphanumerics, underscore and the Swedish letters this embedding
carries. -/
def isWordCh (c : Char) : Bool :=
  isDigitCh c || ('a' ≤ c && c ≤ 'z') || ('A' ≤ c && c ≤ 'Z') || c = '_' ||
  c = 'Ö' || c = 'Ä' || c = 'Å' || c = 'ö' || c = 'ä' || c = 'å'

def boundaryBefore : Option Char → Bool
  | none => true
  | some c => ! isWordCh c

def boundaryAfter : List Char → Bool
  | [] => true
  | c :: _ => ! isWordCh c

def isDateSep (c : Char) : Bool := c = '.' || c = '/' || c = '-'

def matchDateAt (prev : Option Char) (s : List Char) : Option PyStr :=
  if boundaryBefore prev then
    match s with
    | a :: b :: c :: d :: e :: f :: g :: h :: i :: j :: rest =>
      if isDigitCh a && isDigitCh b && isDigitCh c && isDigitCh d && e = '-' &&
         isDigitCh f && isDigitCh g && h = '-' && isDigitCh i && isDigitCh j &&
         boundaryAfter rest then
        some [a, b, c, d, e, f, g, h, i, j]
      else if isDigitCh a && isDigitCh b && isDateSep c && isDigitCh d &&
         isDigitCh e && isDateSep f && isDigitCh g && isDigitCh h &&
         isDigitCh i && isDigitCh j && boundaryAfter rest then
        some [a, b, c, d, e, f, g, h, i, j]
      else none
    | _ => none
  else none

def dateSearchAux : Option Char → List Char → Option PyStr
  | prev, [] => matchDateAt prev []
  | prev, c :: cs =>
    match matchDateAt prev (c :: cs) with
    | some m => some m
    | none => dateSearchAux (some c) cs

def dateSearchTop (s : List Char) : Option PyStr := dateSearchAux none s

def isAmtSep (c : Char) : Bool := c = '.' || c = ','

def take3Digits : List Char → PyStr × List Char
  | a :: b :: c :: rest =>
    if isDigitCh a then
      if isDigitCh b then
        if isDigitCh c then ([a, b, c], rest) else ([a, b], c :: rest)
      else ([a], b :: c :: rest)
    else ([], a :: b :: c :: rest)
  | [a, b] =>
    if isDigitCh a then
      if isDigitCh b then ([a, b], []) else ([a], [b])
    else ([], [a, b])
  | [a] => if isDigitCh a then ([a], []) else ([], [a])
  | [] => ([], [])

def starGroupsAux : Nat → List Char → PyStr × List Char
  | 0, s => ([], s)
  | fuel + 1, s =>
    match s with
    | sep :: a :: b :: c :: rest =>
      if isAmtSep sep && isDigitCh a && isDigitCh b && isDigitCh c then
        let p := starGroupsAux fuel rest
        (sep :: a :: b :: c :: p.1, p.2)
      else ([], s)
    | _ => ([], s)

def optCents : List Char → PyStr × List Char
  | sep :: a :: b :: rest =>
    if isAmtSep sep && isDigitCh a && isDigitCh b then ([sep, a, b], rest)
    else ([], sep :: a :: b :: rest)
  | s => ([], s)

def matchAmountAt (s : List Char) : Option (PyStr × List Char) :=
  let sp : PyStr × List Char :=
    match s with
    | c :: d :: rest =>
      if (c = '-' || c = '+') && isDigitCh d then ([c], d :: rest)
      else ([], c :: d :: rest)
    | _ => ([], s)
  match sp.2 with
  | d :: _ =>
    if isDigitCh d then
      let t := take3Digits sp.2
      let g := starGroupsAux t.2.length t.2
      let o := optCents g.2
      some (sp.1 ++ t.1 ++ g.1 ++ o.1, o.2)
    else none
  | [] => none

def findAmountsAux : Nat → List Char → List PyStr
  | 0, _ => []
  | _ + 1, [] => []
  | fuel + 1, c :: cs =>
    match matchAmountAt (c :: cs) with
    | some p => p.1 :: findAmountsAux fuel p.2
    | none => findAmountsAux fuel cs

def findAmounts (s : List Char) : List PyStr := findAmountsAux s.length s

def replaceAllAux : Nat → List Char → List Char → List Char
  | 0, _, s => s
  | _ + 1, _, [] => []
  | fuel + 1, sub, c :: cs =>
    if sub.isPrefixOf (c :: cs) then replaceAllAux fuel sub ((c :: cs).drop sub.length)
    else c :: replaceAllAux fuel sub cs

def pyReplaceAll (s sub : List Char) : List Char :=
  if sub.isEmpty then s else replaceAllAux s.length sub s

def parsePdfLine (line : PyStr) : Option (PyStr × PyStr × PyStr) :=
  if pyStrip line = [] then none
  else
    match dateSearchTop (pyStrip line), (findAmounts (pyStrip line)).getLast? with
    | some d, some a =>
      some (d, pyStripSet [' ', '-'] (pyReplaceAll (pyReplaceAll (pyStrip line) d) a), a)
    | _, _ => none

theorem foldl_reverse_ofDigitsLE (l : List Nat) :
    ∀ a : Nat, List.foldl (fun a d => 10 * a + d) a l.reverse
      = a * 10 ^ l.length + ofDigitsLE l := by
  induction l with
  | nil => intro a; simp [ofDigitsLE]
  | cons d t ih =>
    intro a
    rw [List.reverse_cons, List.foldl_append]
    simp only [List.foldl_cons, List.foldl_nil, ih a, ofDigitsLE,
      List.foldr_cons, List.length_cons]
    show 10 * (a * 10 ^ t.length + List.foldr (fun d acc => d + 10 * acc) 0 t) + d
      = a * 10 ^ (t.length + 1) + (d + 10 * List.foldr (fun d acc => d + 10 * acc) 0 t)
    ring

theorem valDigitsBE_reverse (l : List Nat) :
    valDigitsBE l.reverse = ofDigitsLE l := by
  have := foldl_reverse_ofDigitsLE l 0
  simpa [valDigitsBE] using this

theorem ofDigitsLE_digitsLEAux (fuel n : Nat) (h : n ≤ fuel) :
    ofDigitsLE (digitsLEAux fuel n) = n := by
  induction fuel generalizing n with
  | zero =>
    have hn : n = 0 := Nat.le_zero.mp h
    subst hn
    rfl
  | succ fuel ih =>
    by_cases hn : n < 10
    · simp [digitsLEAux, hn, ofDigitsLE]
    · have hdiv : n / 10 ≤ fuel := by
        have h1 : n / 10 < n := Nat.div_lt_self (by omega) (by omega)
        omega
      simp only [digitsLEAux, hn, if_false, ofDigitsLE, List.foldr_cons]
      have := ih (n / 10) hdiv
      simp only [ofDigitsLE] at this
      rw [this]
      omega

theorem ofDigitsLE_digitsLE (n : Nat) : ofDigitsLE (digitsLE n) = n :=
  ofDigitsLE_digitsLEAux (n + 1) n (Nat.le_succ n)

theorem digitsLEAux_lt_ten (fuel n : Nat) (h : n ≤ fuel) :
    ∀ d ∈ digitsLEAux fuel n, d < 10 := by
  induction fuel generalizing n with
  | zero => interval_cases n; simp [digitsLEAux]
  | succ fuel ih =>
    by_cases hn : n < 10
    · simp only [digitsLEAux, hn, if_true, eq_self_iff_true]
      intro d hd
      rcases List.mem_singleton.mp (by simpa using hd) with rfl
      omega
    · have hdiv : n / 10 ≤ fuel := by
        have h1 : n / 10 < n := Nat.div_lt_self (by omega) (by omega)
        omega
      simp only [digitsLEAux, hn, if_false]
      intro d hd
      rcases List.mem_cons.1 hd with h1 | h1
      · subst h1; exact Nat.mod_lt _ (by omega)
      · exact ih (n / 10) hdiv d h1

theorem digitsLE_lt_ten (n : Nat) : ∀ d ∈ digitsLE n, d < 10 :=
  digitsLEAux_lt_ten (n + 1) n (Nat.le_succ n)

theorem charVal_digitChr {d : Nat} (h : d < 10) : charVal (digitChr d) = d := by
  interval_cases d <;> decide

theorem isDigitCh_digitChr {d : Nat} (h : d < 10) : isDigitCh (digitChr d) = true := by
  interval_cases d <;> decide

theorem foldl_map_digitChr (l : List Nat) (h : ∀ d ∈ l, d < 10) :
    ∀ a : Nat, List.foldl (fun a c => 10 * a + charVal c) a (l.map digitChr)
      = List.foldl (fun a d => 10 * a + d) a l := by
  induction l with
  | nil => intro a; rfl
  | cons d t ih =>
    intro a
    simp only [List.map_cons, List.foldl_cons]
    rw [charVal_digitChr (h d (by simp))]
    exact ih (fun x hx => h x (by simp [hx])) _

theorem valBE_map_digitChr (l : List Nat) (h : ∀ d ∈ l, d < 10) :
    valBE (l.map digitChr) = valDigitsBE l :=
  foldl_map_digitChr l h 0

theorem valBE_natChars (n : Nat) : valBE (natChars n) = n := by
  have h1 : valBE ((digitsLE n).reverse.map digitChr)
      = valDigitsBE (digitsLE n).reverse := by
    apply valBE_map_digitChr
    intro d hd
    exact digitsLE_lt_ten n d (List.mem_reverse.mp hd)
  rw [natChars, h1, valDigitsBE_reverse, ofDigitsLE_digitsLE]

theorem natChars_all_digit (n : Nat) : ∀ c ∈ natChars n, isDigitCh c = true := by
  intro c hc
  rcases List.mem_map.mp hc with ⟨d, hd, rfl⟩
  exact isDigitCh_digitChr (digitsLE_lt_ten n d (List.mem_reverse.mp hd))

theorem digitsLE_ne_nil (n : Nat) : digitsLE n ≠ [] := by
  unfold digitsLE digitsLEAux
  by_cases h : n < 10 <;> simp [h]

theorem natChars_ne_nil (n : Nat) : natChars n ≠ [] := by
  unfold natChars
  intro h
  exact digitsLE_ne_nil n (by simpa using h)

/-! ## Canonical-form lemmas for the amount normalizer -/
theorem splitCh_sepFree {sep : Char} {s : PyStr} (h : ∀ c ∈ s, c ≠ sep) :
    splitCh sep s = [s] := by
  induction s with
  | nil => rfl
  | cons c t ih =>
    have hc : c ≠ sep := h c (by simp)
    have ht : splitCh sep t = [t] := ih (fun x hx => h x (by simp [hx]))
    simp [splitCh, hc, ht]

theorem splitCh_append {sep : Char} {a b : PyStr} (h : ∀ c ∈ a, c ≠ sep) :
    splitCh sep (a ++ sep :: b) = a :: splitCh sep b := by
  induction a with
  | nil => simp [splitCh]
  | cons c t ih =>
    have hc : c ≠ sep := h c (by simp)
    have ht := ih (fun x hx => h x (by simp [hx]))
    simp [splitCh, hc, ht]

theorem valBE_foldl_acc (b : PyStr) :
    ∀ a : Nat, List.foldl (fun x c => 10 * x + charVal c) a b
      = a * 10 ^ b.length + valBE b := by
  induction b with
  | nil => intro a; simp [valBE]
  | cons c t ih =>
    intro a
    have hL : List.foldl (fun x c => 10 * x + charVal c) a (c :: t)
        = (10 * a + charVal c) * 10 ^ t.length + valBE t := by
      rw [List.foldl_cons]; exact ih _
    have hR : valBE (c :: t) = charVal c * 10 ^ t.length + valBE t := by
      have h0 : valBE (c :: t)
          = List.foldl (fun x c => 10 * x + charVal c) (10 * 0 + charVal c) t := by
        rw [valBE, List.foldl_cons]
      rw [h0, ih (10 * 0 + charVal c)]
      ring
    rw [hL, hR, List.length_cons]
    ring

theorem valBE_append (a b : PyStr) :
    valBE (a ++ b) = valBE a * 10 ^ b.length + valBE b := by
  rw [valBE, List.foldl_append]
  exact valBE_foldl_acc b _

theorem digitsLE_single {n : Nat} (h : n < 10) : digitsLE n = [n] := by
  simp [digitsLE, digitsLEAux, h]

theorem digitsLE_two {n : Nat} (h1 : 10 ≤ n) (h2 : n < 100) :
    digitsLE n = [n % 10, n / 10] := by
  have hn : ¬(n < 10) := by omega
  have hd : n / 10 < 10 := by omega
  obtain ⟨m, rfl⟩ : ∃ m, n = m + 1 := ⟨n - 1, by omega⟩
  simp only [digitsLE, digitsLEAux, hn, if_false]
  obtain ⟨j, rfl⟩ : ∃ j, m = j + 1 := ⟨m - 1, by omega⟩
  simp [digitsLEAux, hd]

theorem natChars_lt_ten {n : Nat} (h : n < 10) : natChars n = [digitChr n] := by
  simp [natChars, digitsLE_single h]

theorem natChars_two {n : Nat} (h1 : 10 ≤ n) (h2 : n < 100) :
    natChars n = [digitChr (n / 10), digitChr (n % 10)] := by
  simp [natChars, digitsLE_two h1 h2]

theorem valBE_pad2 {n : Nat} (h : n < 100) : valBE (pad2 n) = n := by
  have h1 : n / 10 % 10 < 10 := Nat.mod_lt _ (by omega)
  have h2 : n % 10 < 10 := Nat.mod_lt _ (by omega)
  simp only [pad2, valBE, List.foldl_cons, List.foldl_nil,
    charVal_digitChr h1, charVal_digitChr h2]
  omega

theorem pad2_all_digit (n : Nat) : ∀ c ∈ pad2 n, isDigitCh c = true := by
  intro c hc
  simp only [pad2, List.mem_cons, List.not_mem_nil, or_false] at hc
  rcases hc with rfl | rfl
  · exact isDigitCh_digitChr (Nat.mod_lt _ (by omega))
  · exact isDigitCh_digitChr (Nat.mod_lt _ (by omega))

theorem padChars_two {n : Nat} (h : n < 100) : padChars 2 n = pad2 n := by
  by_cases h1 : n < 10
  · have hn : natChars n = [digitChr n] := natChars_lt_ten h1
    have hd : n / 10 = 0 := Nat.div_eq_of_lt h1
    have hm : n % 10 = n := Nat.mod_eq_of_lt h1
    simp [padChars, hn, pad2, hd, hm, List.replicate]
    rfl
  · have hn : natChars n = [digitChr (n / 10), digitChr (n % 10)] :=
      natChars_two (by omega) h
    have hd : n / 10 % 10 = n / 10 := Nat.mod_eq_of_lt (by omega)
    simp [padChars, hn, pad2, hd, List.replicate]

theorem strDec_two (neg : Bool) (m : Nat) :
    strDec ⟨neg, m, 2⟩
      = (if neg then ['-'] else []) ++ (natChars (m / 100) ++ '.' :: pad2 (m % 100)) := by
  have : (10 : Nat) ^ (1 + 1) = 100 := by norm_num
  simp only [strDec, this, padChars_two (Nat.mod_lt m (by omega : (0:Nat) < 100))]

theorem digit_ne_plus {c : Char} (h : isDigitCh c = true) : c ≠ '+' := by
  intro hc; subst hc; exact absurd h (by decide)

theorem digit_ne_minus {c : Char} (h : isDigitCh c = true) : c ≠ '-' := by
  intro hc; subst hc; exact absurd h (by decide)

theorem digit_ne_dot {c : Char} (h : isDigitCh c = true) : c ≠ '.' := by
  intro hc; subst hc; exact absurd h (by decide)

theorem digit_ne_comma {c : Char} (h : isDigitCh c = true) : c ≠ ',' := by
  intro hc; subst hc; exact absurd h (by decide)

theorem digit_ne_space {c : Char} (h : isDigitCh c = true) : c ≠ ' ' := by
  intro hc; subst hc; exact absurd h (by decide)

theorem digit_not_ws {c : Char} (h : isDigitCh c = true) : isWs c = false := by
  simp only [isWs, decide_eq_false_iff_not]
  rintro (rfl | rfl | rfl | rfl) <;> exact absurd h (by decide)

theorem parseSign_no_sign {c : Char} {r : PyStr} (h1 : c ≠ '+') (h2 : c ≠ '-') :
    parseSign (c :: r) = (false, c :: r) := by
  simp [parseSign, h1, h2]

/-- Character classification of the canonical scale-2 rendering. -/
theorem strDec_two_chars (neg : Bool) (m : Nat) :
    ∀ c ∈ strDec ⟨neg, m, 2⟩, c = '-' ∨ c = '.' ∨ isDigitCh c = true := by
  intro c hc
  rw [strDec_two] at hc
  rcases List.mem_append.mp hc with h | h
  · left
    cases neg <;> simp at h
    exact h
  · rcases List.mem_append.mp h with h1 | h1
    · exact Or.inr (Or.inr (natChars_all_digit _ c h1))
    · rcases List.mem_cons.mp h1 with h2 | h2
      · exact Or.inr (Or.inl h2)
      · exact Or.inr (Or.inr (pad2_all_digit _ c h2))

/-- The canonical form `[-]intdigits.dd` parses back to the expected
sign, coefficient and scale. -/
theorem parseDec_canonical (neg : Bool) (n c : Nat) (hc : c < 100) :
    parseDec ((if neg then ['-'] else []) ++ (natChars n ++ '.' :: pad2 c))
      = some ⟨neg, n * 100 + c, 2⟩ := by
  have hsplit : splitCh '.' (natChars n ++ '.' :: pad2 c)
      = [natChars n, pad2 c] := by
    rw [splitCh_append (fun x hx => digit_ne_dot (natChars_all_digit _ x hx))]
    rw [splitCh_sepFree (fun x hx => digit_ne_dot (pad2_all_digit _ x hx))]
  have hval : valBE (natChars n ++ pad2 c) = n * 100 + c := by
    rw [valBE_append, valBE_natChars, valBE_pad2 hc]
    have hlen : (pad2 c).length = 2 := rfl
    rw [hlen]
    norm_num
  have hne : natChars n ≠ [] := natChars_ne_nil _
  have hall1 : (natChars n).all isDigitCh = true :=
    List.all_eq_true.mpr (fun x hx => natChars_all_digit _ x hx)
  have hall2 : (pad2 c).all isDigitCh = true :=
    List.all_eq_true.mpr (fun x hx => pad2_all_digit _ x hx)
  have hcore : parseDecCore neg (natChars n ++ '.' :: pad2 c)
      = some ⟨neg, n * 100 + c, 2⟩ := by
    rw [parseDecCore, hsplit]
    simp only [hne, hall1, hall2, hval, ne_eq, not_false_eq_true, true_or, true_and,
      and_self, if_true, if_pos]
    simp [pad2, hval]
  have hsign : parseSign ((if neg then ['-'] else []) ++ (natChars n ++ '.' :: pad2 c))
      = (neg, natChars n ++ '.' :: pad2 c) := by
    cases neg with
    | true => simp [parseSign]
    | false =>
      simp only [Bool.false_eq_true, if_false, List.nil_append]
      obtain ⟨x, xs, hxs⟩ : ∃ x xs, natChars n = x :: xs := by
        cases h : natChars n with
        | nil => exact absurd h hne
        | cons x xs => exact ⟨x, xs, rfl⟩
      have hxd : isDigitCh x = true := natChars_all_digit _ x (by rw [hxs]; simp)
      rw [hxs, List.cons_append,
        parseSign_no_sign (digit_ne_plus hxd) (digit_ne_minus hxd)]
  rw [parseDec, hsign]
  exact hcore

theorem parseDec_strDec_two (neg : Bool) (m : Nat) :
    parseDec (strDec ⟨neg, m, 2⟩) = some ⟨neg, m, 2⟩ := by
  rw [strDec_two, parseDec_canonical neg (m / 100) (m % 100) (Nat.mod_lt m (by omega))]
  have := Nat.div_add_mod m 100
  congr 1
  cases (rfl : (⟨neg, m / 100 * 100 + m % 100, 2⟩ : PyDec) = _)
  congr 1
  omega

theorem dropWhile_all_false {p : Char → Bool} {s : PyStr}
    (h : ∀ c ∈ s, p c = false) : s.dropWhile p = s := by
  cases s with
  | nil => rfl
  | cons c t => rw [List.dropWhile_cons, h c (by simp)]; simp

theorem pyStrip_all {s : PyStr} (h : ∀ c ∈ s, isWs c = false) : pyStrip s = s := by
  rw [pyStrip, dropWhile_all_false h,
    dropWhile_all_false (fun c hc => h c (List.mem_reverse.mp hc)),
    List.reverse_reverse]

theorem removeAllCh_id {c : Char} {s : PyStr} (h : ∀ x ∈ s, x ≠ c) :
    removeAllCh c s = s :=
  List.filter_eq_self.mpr (fun a ha => by simpa using h a ha)

theorem contains_eq_false {α : Type} [BEq α] [LawfulBEq α] {c : α} {s : List α}
    (h : ∀ x ∈ s, x ≠ c) :
    s.contains c = false := by
  cases hc : s.contains c with
  | false => rfl
  | true =>
    have hm : c ∈ s := by simpa using hc
    exact absurd hm (fun hm => h c hm rfl)

theorem replaceCh_id {a b : Char} {s : PyStr} (h : ∀ x ∈ s, x ≠ a) :
    replaceCh a b s = s := by
  have h2 := List.map_congr_left (l := s) (f := fun c => if c = a then b else c) (g := id)
    (fun x hx => by simp [h x hx])
  simpa [replaceCh] using h2

theorem quantize2_scale (x : PyDec) : (quantize2 x).scale = 2 := by
  unfold quantize2; split <;> rfl

theorem quantize2_of_scale_two {x : PyDec} (h : x.scale = 2) : quantize2 x = x := by
  cases x with
  | mk neg mant scale =>
    simp only at h
    subst h
    simp [quantize2]

theorem strDec_two_ne_nil (neg : Bool) (m : Nat) : strDec ⟨neg, m, 2⟩ ≠ [] := by
  rw [strDec_two]
  cases neg <;> simp [natChars_ne_nil]

theorem normalizeAmountDec_canon (neg : Bool) (m : Nat) :
    normalizeAmountDec (strDec ⟨neg, m, 2⟩) = some ⟨neg, m, 2⟩ := by
  have hch := strDec_two_chars neg m
  have hnws : ∀ c ∈ strDec ⟨neg, m, 2⟩, isWs c = false := by
    intro c hc
    rcases hch c hc with rfl | rfl | hd
    · decide
    · decide
    · exact digit_not_ws hd
  have hnsp : ∀ c ∈ strDec ⟨neg, m, 2⟩, c ≠ ' ' := by
    intro c hc
    rcases hch c hc with rfl | rfl | hd
    · decide
    · decide
    · exact digit_ne_space hd
  have hncm : ∀ c ∈ strDec ⟨neg, m, 2⟩, c ≠ ',' := by
    intro c hc
    rcases hch c hc with rfl | rfl | hd
    · decide
    · decide
    · exact digit_ne_comma hd
  rw [normalizeAmountDec, pyStrip_all hnws, if_neg (strDec_two_ne_nil neg m)]
  rw [amountClean, removeAllCh_id hnsp, contains_eq_false hncm]
  simp only [Bool.false_eq_true, false_and, if_false]
  rw [replaceCh_id hncm, parseDec_strDec_two, Option.map_some']
  exact congrArg some (quantize2_of_scale_two rfl)

theorem normalizeAmountDec_scale {s : PyStr} {d : PyDec}
    (h : normalizeAmountDec s = some d) : d.scale = 2 := by
  rw [normalizeAmountDec] at h
  by_cases he : pyStrip s = []
  · rw [if_pos he] at h
    exact absurd h (by simp)
  · rw [if_neg he] at h
    cases hp : parseDec (amountClean (pyStrip s)) with
    | none => rw [hp] at h; exact absurd h (by simp)
    | some q =>
      rw [hp, Option.map_some'] at h
      rw [← Option.some.inj h]
      exact quantize2_scale q

/-- Scale-2 eta expansion. -/
theorem eta_scale_two {d : PyDec} (h : d.scale = 2) : d = ⟨d.neg, d.mant, 2⟩ := by
  cases d; simp only at h; subst h; rfl

/-- **C7** — For every valid decimal string in either the `1.234,56`
style or the `1,234.56` style, `normalize_amount` is idempotent:
applying it to its own canonical output returns the same value.  Proved
in the stronger form: for every string on which the ingest-side
`_normalize_amount` succeeds, re-normalizing its output is the identity,
and for the ledger-side variant (which returns a `Decimal`), feeding the
result back through the `isinstance(value, Decimal)` branch returns it
unchanged. -/
theorem C7_normalize_amount_idempotent (s t : PyStr) (d : PyDec) :
    (normalizeAmountStr s = some t → normalizeAmountStr t = some t) ∧
    (normalizeAmountDec s = some d → normalizeAmountDecOfDec d = d) := by
  constructor
  · intro h
    rw [normalizeAmountStr, Option.map_eq_some'] at h
    obtain ⟨p, hp, rfl⟩ := h
    have hs : p.scale = 2 := normalizeAmountDec_scale hp
    have hpe : p = ⟨p.neg, p.mant, 2⟩ := eta_scale_two hs
    rw [normalizeAmountStr, hpe, normalizeAmountDec_canon, Option.map_some']
  · intro h
    have hs : d.scale = 2 := normalizeAmountDec_scale h
    rw [normalizeAmountDecOfDec, quantize2_of_scale_two hs]

/-- Witness for C7 at the concrete input `"1,234.56"`. -/
theorem C7_witness :
    normalizeAmountStr (pys "1234.56") = some (pys "1234.56") ∧
    normalizeAmountDecOfDec ⟨false, 123456, 2⟩ = ⟨false, 123456, 2⟩ := by
  have h := C7_normalize_amount_idempotent (pys "1,234.56") (pys "1234.56")
    ⟨false, 123456, 2⟩
  exact ⟨h.1 (by decide), h.2 (by decide)⟩

theorem group3Rev_filter (sep : Char) (Y : PyStr) (h : ∀ x ∈ Y, x ≠ sep) :
    (group3Rev sep Y).filter (· ≠ sep) = Y := by
  induction Y using group3Rev.induct sep with
  | case1 a b c rest h1 =>
    have h2 : rest = [] := List.isEmpty_iff.mp h1
    subst h2
    have ha : a ≠ sep := h a (by simp)
    have hb : b ≠ sep := h b (by simp)
    have hc : c ≠ sep := h c (by simp)
    simp [group3Rev, List.filter, ha, hb, hc]
  | case2 a b c rest h1 ih =>
    have h2 : ¬(rest = []) := by simpa [List.isEmpty_iff] using h1
    have ha : a ≠ sep := h a (by simp)
    have hb : b ≠ sep := h b (by simp)
    have hc : c ≠ sep := h c (by simp)
    have ht := ih (fun x hx => h x (by simp [hx]))
    simp only [group3Rev, List.isEmpty_eq_true, if_neg h2]
    simp [List.filter, ha, hb, hc]
    simpa using ht
  | case3 l h1 =>
    match l, h, h1 with
    | [], _, _ => rfl
    | [a], h, _ =>
      have ha : a ≠ sep := h a (by simp)
      simp [group3Rev, List.filter, ha]
    | [a, b], h, _ =>
      have ha : a ≠ sep := h a (by simp)
      have hb : b ≠ sep := h b (by simp)
      simp [group3Rev, List.filter, ha, hb]
    | a :: b :: c :: r, _, h1 => exact (h1 a b c r rfl).elim

theorem group3Rev_mem (sep : Char) (Y : PyStr) :
    ∀ x ∈ group3Rev sep Y, x ∈ Y ∨ x = sep := by
  induction Y using group3Rev.induct sep with
  | case1 a b c rest h1 =>
    have h2 : rest = [] := List.isEmpty_iff.mp h1
    subst h2
    intro x hx
    simp only [group3Rev, List.isEmpty_nil, if_true] at hx
    left; simpa using hx
  | case2 a b c rest h1 ih =>
    have h2 : ¬(rest = []) := by simpa [List.isEmpty_iff] using h1
    intro x hx
    simp only [group3Rev, List.isEmpty_eq_true, if_neg h2, List.mem_cons] at hx
    rcases hx with rfl | rfl | rfl | rfl | hx
    · left; simp
    · left; simp
    · left; simp
    · right; rfl
    · rcases ih x hx with h3 | h3
      · left; simp [h3]
      · right; exact h3
  | case3 l h1 =>
    intro x hx
    match l, hx, h1 with
    | [], hx, _ => simp [group3Rev] at hx
    | [a], hx, _ => left; simpa [group3Rev] using hx
    | [a, b], hx, _ => left; simpa [group3Rev] using hx
    | a :: b :: c :: r, _, h1 => exact (h1 a b c r rfl).elim

theorem group3_mem (sep : Char) (X : PyStr) :
    ∀ x ∈ group3 sep X, x ∈ X ∨ x = sep := by
  intro x hx
  rw [group3, List.mem_reverse] at hx
  rcases group3Rev_mem sep X.reverse x hx with h | h
  · left; exact List.mem_reverse.mp h
  · right; exact h

theorem removeAll_group3 {sep : Char} {X : PyStr} (h : ∀ x ∈ X, x ≠ sep) :
    removeAllCh sep (group3 sep X) = X := by
  rw [removeAllCh, group3, List.filter_reverse,
    group3Rev_filter sep X.reverse (fun x hx => h x (List.mem_reverse.mp hx)),
    List.reverse_reverse]

theorem group3_no_sep_id {sep : Char} {X : PyStr}
    (hX : ∀ x ∈ X, x ≠ sep) (hg : ∀ x ∈ group3 sep X, x ≠ sep) :
    group3 sep X = X := by
  have h1 := removeAll_group3 hX
  rw [removeAllCh, List.filter_eq_self.mpr (fun a ha => by simpa using hg a ha)] at h1
  exact h1

theorem mem_dropWhile_of_not {p : Char → Bool} {c : Char} {s : PyStr}
    (hc : c ∈ s) (hp : p c = false) : c ∈ s.dropWhile p := by
  induction s with
  | nil => exact absurd hc (List.not_mem_nil c)
  | cons a t ih =>
    rw [List.dropWhile_cons]
    by_cases ha : p a = true
    · rw [ha]
      simp only [if_true]
      rcases List.mem_cons.mp hc with rfl | h
      · exact absurd ha (by simp [hp])
      · exact ih h
    · simp only [ha, if_false]
      exact hc

theorem pyStrip_ne_nil {c : Char} {s : PyStr} (hc : c ∈ s) (hw : isWs c = false) :
    pyStrip s ≠ [] := by
  intro h
  have h1 : c ∈ s.dropWhile isWs := mem_dropWhile_of_not hc hw
  have h2 : c ∈ (s.dropWhile isWs).reverse.dropWhile isWs :=
    mem_dropWhile_of_not (List.mem_reverse.mpr h1) hw
  rw [pyStrip] at h
  have h3 : (s.dropWhile isWs).reverse.dropWhile isWs = [] := by
    have := congrArg List.reverse h
    simpa using this
  rw [h3] at h2
  exact List.not_mem_nil c h2

theorem filter_dropWhile_sp {s : PyStr} (h : ∀ c ∈ s, isWs c = true → c = ' ') :
    (s.dropWhile isWs).filter (· ≠ ' ') = s.filter (· ≠ ' ') := by
  induction s with
  | nil => rfl
  | cons a t ih =>
    rw [List.dropWhile_cons]
    by_cases ha : isWs a = true
    · have ha2 : a = ' ' := h a (by simp) ha
      subst ha2
      rw [if_pos ha, List.filter_cons, if_neg (by decide)]
      exact ih (fun c hc hw => h c (by simp [hc]) hw)
    · rw [if_neg ha]

theorem removeAll_pyStrip {s : PyStr} (h : ∀ c ∈ s, isWs c = true → c = ' ') :
    removeAllCh ' ' (pyStrip s) = removeAllCh ' ' s := by
  have hsub : ∀ c ∈ (s.dropWhile isWs).reverse, isWs c = true → c = ' ' := by
    intro c hc hw
    exact h c ((s.dropWhile_sublist isWs).subset (List.mem_reverse.mp hc)) hw
  calc removeAllCh ' ' (pyStrip s)
      = (((s.dropWhile isWs).reverse.dropWhile isWs).filter (· ≠ ' ')).reverse := by
        rw [pyStrip, removeAllCh, List.filter_reverse]
    _ = ((s.dropWhile isWs).reverse.filter (· ≠ ' ')).reverse := by
        rw [filter_dropWhile_sp hsub]
    _ = (s.dropWhile isWs).filter (· ≠ ' ') := by
        rw [List.filter_reverse, List.reverse_reverse]
    _ = s.filter (· ≠ ' ') := filter_dropWhile_sp h
    _ = removeAllCh ' ' s := rfl

theorem amountClean_pyStrip {s : PyStr} (h : ∀ c ∈ s, isWs c = true → c = ' ') :
    amountClean (pyStrip s) = amountClean s := by
  rw [amountClean, amountClean, removeAll_pyStrip h]

theorem contains_of_mem {α : Type} [BEq α] [LawfulBEq α] {c : α} {s : List α}
    (h : c ∈ s) : s.contains c = true := by
  simpa using h

theorem ne_of_contains_false {α : Type} [BEq α] [LawfulBEq α] {c : α} {s : List α}
    (h : s.contains c = false) :
    ∀ x ∈ s, x ≠ c := by
  intro x hx heq
  subst heq
  rw [contains_of_mem hx] at h
  exact Bool.true_eq_false.mp h

theorem sign_mem {neg : Bool} {x : Char}
    (hx : x ∈ (if neg then (['-'] : PyStr) else [])) : x = '-' := by
  cases neg with
  | false => simp at hx
  | true => simpa using hx

theorem removeAllCh_append (c : Char) (a b : PyStr) :
    removeAllCh c (a ++ b) = removeAllCh c a ++ removeAllCh c b := by
  simp [removeAllCh]

theorem replaceCh_append (a b : Char) (x y : PyStr) :
    replaceCh a b (x ++ y) = replaceCh a b x ++ replaceCh a b y := by
  simp [replaceCh]

theorem replaceCh_cons (a b : Char) (c : Char) (t : PyStr) :
    replaceCh a b (c :: t) = (if c = a then b else c) :: replaceCh a b t := rfl

theorem removeAllCh_sign (c : Char) (hc : c ≠ '-') (neg : Bool) :
    removeAllCh c (if neg then (['-'] : PyStr) else []) = (if neg then ['-'] else []) := by
  cases neg with
  | false => rfl
  | true => simp [removeAllCh, List.filter, Ne.symm hc]

theorem replaceCh_sign (a b : Char) (ha : a ≠ '-') (neg : Bool) :
    replaceCh a b (if neg then (['-'] : PyStr) else []) = (if neg then ['-'] else []) := by
  cases neg with
  | false => rfl
  | true => simp [replaceCh, Ne.symm ha]

theorem renderAmt_shape (st : AmtStyle) (neg : Bool) (n c : Nat) :
    renderAmt st neg n c
      = (if neg then ['-'] else []) ++ styleGroup st n ++ styleDecSep st :: pad2 c := by
  cases st <;> rfl

/-- Members of a grouped integer part are digits or the group separator. -/
theorem styleGroup_mem (st : AmtStyle) (n : Nat) :
    ∀ x ∈ styleGroup st n, isDigitCh x = true ∨ x = ' ' ∨ x = ',' ∨ x = '.' := by
  intro x hx
  cases st with
  | plain => exact Or.inl (natChars_all_digit n x hx)
  | commaDec => exact Or.inl (natChars_all_digit n x hx)
  | spaceDot =>
    rcases group3_mem ' ' (natChars n) x hx with h | h
    · exact Or.inl (natChars_all_digit n x h)
    · exact Or.inr (Or.inl h)
  | spaceComma =>
    rcases group3_mem ' ' (natChars n) x hx with h | h
    · exact Or.inl (natChars_all_digit n x h)
    · exact Or.inr (Or.inl h)
  | commaDot =>
    rcases group3_mem ',' (natChars n) x hx with h | h
    · exact Or.inl (natChars_all_digit n x h)
    · exact Or.inr (Or.inr (Or.inl h))
  | dotComma =>
    rcases group3_mem '.' (natChars n) x hx with h | h
    · exact Or.inl (natChars_all_digit n x h)
    · exact Or.inr (Or.inr (Or.inr h))

/-- The §4.1 cleanup turns every style except the period-grouped
`1.234,56` one into the plain canonical form. -/
theorem amountClean_renderAmt {st : AmtStyle} (hst : st ≠ AmtStyle.dotComma)
    (neg : Bool) (n c : Nat) :
    amountClean (renderAmt st neg n c)
      = (if neg then ['-'] else []) ++ (natChars n ++ '.' :: pad2 c) := by
  have hX : ∀ x ∈ natChars n, isDigitCh x = true := natChars_all_digit n
  have hP : ∀ x ∈ pad2 c, isDigitCh x = true := pad2_all_digit c
  have hpadsp : ∀ x ∈ pad2 c, x ≠ ' ' := fun x hx => digit_ne_space (hP x hx)
  have hpadcm : ∀ x ∈ pad2 c, x ≠ ',' := fun x hx => digit_ne_comma (hP x hx)
  have hpaddt : ∀ x ∈ pad2 c, x ≠ '.' := fun x hx => digit_ne_dot (hP x hx)
  cases st with
  | dotComma => exact absurd rfl hst
  | plain =>
    have hnosp : ∀ x ∈ renderAmt AmtStyle.plain neg n c, x ≠ ' ' := by
      intro x hx
      rw [renderAmt_shape] at hx
      rcases List.mem_append.mp hx with h | h
      · rcases List.mem_append.mp h with h | h
        · obtain rfl := sign_mem h; decide
        · exact digit_ne_space (hX x h)
      · rcases List.mem_cons.mp h with rfl | h
        · decide
        · exact hpadsp x h
    have hnocm : ∀ x ∈ renderAmt AmtStyle.plain neg n c, x ≠ ',' := by
      intro x hx
      rw [renderAmt_shape] at hx
      rcases List.mem_append.mp hx with h | h
      · rcases List.mem_append.mp h with h | h
        · obtain rfl := sign_mem h; decide
        · exact digit_ne_comma (hX x h)
      · rcases List.mem_cons.mp h with rfl | h
        · decide
        · exact hpadcm x h
    rw [amountClean, removeAllCh_id hnosp, contains_eq_false hnocm]
    simp only [Bool.false_eq_true, false_and, if_false]
    rw [replaceCh_id hnocm, renderAmt_shape]
    simp [styleGroup, styleDecSep]
  | commaDec =>
    have hnosp : ∀ x ∈ renderAmt AmtStyle.commaDec neg n c, x ≠ ' ' := by
      intro x hx
      rw [renderAmt_shape] at hx
      rcases List.mem_append.mp hx with h | h
      · rcases List.mem_append.mp h with h | h
        · obtain rfl := sign_mem h; decide
        · exact digit_ne_space (hX x h)
      · rcases List.mem_cons.mp h with rfl | h
        · decide
        · exact hpadsp x h
    have hnodt : ∀ x ∈ renderAmt AmtStyle.commaDec neg n c, x ≠ '.' := by
      intro x hx
      rw [renderAmt_shape] at hx
      rcases List.mem_append.mp hx with h | h
      · rcases List.mem_append.mp h with h | h
        · obtain rfl := sign_mem h; decide
        · exact digit_ne_dot (hX x h)
      · rcases List.mem_cons.mp h with rfl | h
        · decide
        · exact hpaddt x h
    rw [amountClean, removeAllCh_id hnosp, contains_eq_false hnodt]
    simp only [Bool.false_eq_true, and_false, if_false]
    rw [renderAmt_shape]
    show replaceCh ',' '.'
        ((if neg then ['-'] else []) ++ natChars n ++ ',' :: pad2 c) = _
    rw [replaceCh_append, replaceCh_append, replaceCh_cons,
      replaceCh_sign ',' '.' (by decide) neg,
      replaceCh_id (fun x hx => digit_ne_comma (hX x hx)),
      replaceCh_id hpadcm]
    simp
  | spaceDot =>
    have h1 : removeAllCh ' ' (renderAmt AmtStyle.spaceDot neg n c)
        = (if neg then ['-'] else []) ++ natChars n ++ '.' :: pad2 c := by
      rw [renderAmt_shape]
      show removeAllCh ' '
          ((if neg then ['-'] else []) ++ group3 ' ' (natChars n) ++ '.' :: pad2 c) = _
      rw [removeAllCh_append, removeAllCh_append,
        removeAllCh_sign ' ' (by decide) neg,
        removeAll_group3 (fun x hx => digit_ne_space (hX x hx)),
        removeAllCh_id (show ∀ x ∈ '.' :: pad2 c, x ≠ ' ' by
          intro x hx
          rcases List.mem_cons.mp hx with rfl | h
          · decide
          · exact hpadsp x h)]
    have hnocm : ∀ x ∈ (if neg then (['-'] : PyStr) else []) ++ natChars n ++ '.' :: pad2 c,
        x ≠ ',' := by
      intro x hx
      rcases List.mem_append.mp hx with h | h
      · rcases List.mem_append.mp h with h | h
        · obtain rfl := sign_mem h; decide
        · exact digit_ne_comma (hX x h)
      · rcases List.mem_cons.mp h with rfl | h
        · decide
        · exact hpadcm x h
    rw [amountClean, h1, contains_eq_false hnocm]
    simp only [Bool.false_eq_true, false_and, if_false]
    rw [replaceCh_id hnocm]
    simp
  | spaceComma =>
    have h1 : removeAllCh ' ' (renderAmt AmtStyle.spaceComma neg n c)
        = (if neg then ['-'] else []) ++ natChars n ++ ',' :: pad2 c := by
      rw [renderAmt_shape]
      show removeAllCh ' '
          ((if neg then ['-'] else []) ++ group3 ' ' (natChars n) ++ ',' :: pad2 c) = _
      rw [removeAllCh_append, removeAllCh_append,
        removeAllCh_sign ' ' (by decide) neg,
        removeAll_group3 (fun x hx => digit_ne_space (hX x hx)),
        removeAllCh_id (show ∀ x ∈ ',' :: pad2 c, x ≠ ' ' by
          intro x hx
          rcases List.mem_cons.mp hx with rfl | h
          · decide
          · exact hpadsp x h)]
    have hnodt : ∀ x ∈ (if neg then (['-'] : PyStr) else []) ++ natChars n ++ ',' :: pad2 c,
        x ≠ '.' := by
      intro x hx
      rcases List.mem_append.mp hx with h | h
      · rcases List.mem_append.mp h with h | h
        · obtain rfl := sign_mem h; decide
        · exact digit_ne_dot (hX x h)
      · rcases List.mem_cons.mp h with rfl | h
        · decide
        · exact hpaddt x h
    rw [amountClean, h1, contains_eq_false hnodt]
    simp only [Bool.false_eq_true, and_false, if_false]
    rw [replaceCh_append, replaceCh_append, replaceCh_cons,
      replaceCh_sign ',' '.' (by decide) neg,
      replaceCh_id (fun x hx => digit_ne_comma (hX x hx)),
      replaceCh_id hpadcm]
    simp
  | commaDot =>
    have h1 : removeAllCh ' ' (renderAmt AmtStyle.commaDot neg n c)
        = (if neg then ['-'] else []) ++ group3 ',' (natChars n) ++ '.' :: pad2 c := by
      rw [renderAmt_shape]
      apply removeAllCh_id
      intro x hx
      rcases List.mem_append.mp hx with h | h
      · rcases List.mem_append.mp h with h | h
        · obtain rfl := sign_mem h; decide
        · rcases group3_mem ',' (natChars n) x h with h2 | h2
          · exact digit_ne_space (hX x h2)
          · subst h2; decide
      · rcases List.mem_cons.mp h with rfl | h
        · decide
        · exact hpadsp x h
    rw [amountClean, h1]
    by_cases hcm : ((if neg then (['-'] : PyStr) else []) ++
        group3 ',' (natChars n) ++ '.' :: pad2 c).contains ',' = true
    · have hdot : ((if neg then (['-'] : PyStr) else []) ++
          group3 ',' (natChars n) ++ '.' :: pad2 c).contains '.' = true := by
        apply contains_of_mem
        exact List.mem_append.mpr (Or.inr (by simp))
      rw [hcm, hdot]
      simp only [and_self, if_true, if_pos]
      rw [removeAllCh_append, removeAllCh_append,
        removeAllCh_sign ',' (by decide) neg,
        removeAll_group3 (fun x hx => digit_ne_comma (hX x hx)),
        removeAllCh_id (show ∀ x ∈ '.' :: pad2 c, x ≠ ',' by
          intro x hx
          rcases List.mem_cons.mp hx with rfl | h
          · decide
          · exact hpadcm x h)]
      simp
    · have hcm' : ((if neg then (['-'] : PyStr) else []) ++
          group3 ',' (natChars n) ++ '.' :: pad2 c).contains ',' = false := by
        cases h : ((if neg then (['-'] : PyStr) else []) ++
            group3 ',' (natChars n) ++ '.' :: pad2 c).contains ','
        · rfl
        · exact absurd h hcm
      have hne := ne_of_contains_false hcm'
      have hgid : group3 ',' (natChars n) = natChars n := by
        apply group3_no_sep_id (fun x hx => digit_ne_comma (hX x hx))
        intro x hx
        exact hne x (List.mem_append.mpr
          (Or.inl (List.mem_append.mpr (Or.inr hx))))
      rw [hcm']
      simp only [Bool.false_eq_true, false_and, if_false]
      rw [replaceCh_id hne, hgid]
      simp

/-- A safe-style render normalizes to the expected decimal value. -/
theorem normalizeAmountDec_renderAmt {st : AmtStyle} (hst : st ≠ AmtStyle.dotComma)
    (neg : Bool) (n c : Nat) (hc : c < 100) :
    normalizeAmountDec (renderAmt st neg n c) = some ⟨neg, n * 100 + c, 2⟩ := by
  have hX : ∀ x ∈ natChars n, isDigitCh x = true := natChars_all_digit n
  have hwssp : ∀ x ∈ renderAmt st neg n c, isWs x = true → x = ' ' := by
    intro x hx hw
    rw [renderAmt_shape] at hx
    rcases List.mem_append.mp hx with h | h
    · rcases List.mem_append.mp h with h | h
      · obtain rfl := sign_mem h; exact absurd hw (by decide)
      · rcases styleGroup_mem st n x h with h2 | h2 | h2 | h2
        · exact absurd hw (by rw [digit_not_ws h2]; decide)
        · exact h2
        · subst h2; exact absurd hw (by decide)
        · subst h2; exact absurd hw (by decide)
    · rcases List.mem_cons.mp h with rfl | h2
      · cases st <;> exact absurd hw (by decide)
      · exact absurd hw (by rw [digit_not_ws (pad2_all_digit c x h2)]; decide)
  have hdsep : styleDecSep st ∈ renderAmt st neg n c := by
    rw [renderAmt_shape]
    exact List.mem_append.mpr (Or.inr (by simp))
  have hnn : pyStrip (renderAmt st neg n c) ≠ [] := by
    refine pyStrip_ne_nil hdsep ?_
    cases st <;> decide
  rw [normalizeAmountDec, if_neg hnn, amountClean_pyStrip hwssp,
    amountClean_renderAmt hst neg n c, parseDec_canonical neg n c hc,
    Option.map_some']
  exact congrArg some (quantize2_of_scale_two rfl)

theorem decEqb_refl (d : PyDec) : decEqb d d = true := by
  simp [decEqb]

/-- **C8 (amended)** — For every pair of amount strings that denote the
same numeric value and differ only in separator convention, the
amount-equivalence comparison used for duplicate detection returns true,
PROVIDED neither string is in the period-grouped `1.234,56` style (which
the §4.1 heuristic deliberately misreads as `1.23`); space grouping,
comma grouping with a period decimal point, and bare comma or period
decimals are all matched, in both store variants. -/
theorem C8_amounts_match_separator_conventions
    (s1 s2 : AmtStyle) (neg : Bool) (n c : Nat) (hc : c < 100)
    (h1 : s1 ≠ AmtStyle.dotComma) (h2 : s2 ≠ AmtStyle.dotComma) :
    amountsMatchFP (renderAmt s1 neg n c) (renderAmt s2 neg n c) = true ∧
    amountsMatchB (renderAmt s1 neg n c) (renderAmt s2 neg n c) = true := by
  have e1 := normalizeAmountDec_renderAmt h1 neg n c hc
  have e2 := normalizeAmountDec_renderAmt h2 neg n c hc
  constructor
  · rw [amountsMatchFP, e1, e2]
    exact decEqb_refl _
  · rw [amountsMatchB, e1, e2]
    exact decEqb_refl _

/-- Counterexample to C8 as stated: `"1.234,56"` (period-grouped,
comma-decimal European style) and `"1234.56"` denote the same value
1234.56 and differ only in separator convention, yet `_amounts_match`
returns false in both variants (the heuristic reads the first as 1.23). -/
theorem C8_counterexample :
    pys "1.234,56" = renderAmt AmtStyle.dotComma false 1234 56 ∧
    pys "1234.56" = renderAmt AmtStyle.plain false 1234 56 ∧
    amountsMatchFP (pys "1.234,56") (pys "1234.56") = false ∧
    amountsMatchB (pys "1.234,56") (pys "1234.56") = false := by
  refine ⟨by decide, by decide, by decide, by decide⟩

/-- Witness for the amended C8 at `"1 200,50"` vs `"1200.50"`. -/
theorem C8_witness :
    renderAmt AmtStyle.spaceComma false 1200 50 = pys "1 200,50" ∧
    renderAmt AmtStyle.plain false 1200 50 = pys "1200.50" ∧
    amountsMatchFP (renderAmt AmtStyle.spaceComma false 1200 50)
      (renderAmt AmtStyle.plain false 1200 50) = true ∧
    amountsMatchB (renderAmt AmtStyle.spaceComma false 1200 50)
      (renderAmt AmtStyle.plain false 1200 50) = true := by
  have h := C8_amounts_match_separator_conventions AmtStyle.spaceComma AmtStyle.plain
    false 1200 50 (by decide) (by decide) (by decide)
  exact ⟨by decide, by decide, h.1, h.2⟩

/-! ## Store lemmas -/
theorem find?_append_none {α : Type} {p : α → Bool} {l1 l2 : List α}
    (h : l1.find? p = none) : (l1 ++ l2).find? p = l2.find? p := by
  induction l1 with
  | nil => rfl
  | cons a t ih =>
    simp only [List.cons_append, List.find?] at h ⊢
    cases hp : p a with
    | true => rw [hp] at h; exact Option.noConfusion h
    | false => rw [hp] at h; exact ih h

theorem find?_map_fst_none {name : PyStr} {l : List (PyStr × Grid)}
    (h : ∀ x ∈ l.map Prod.fst, x ≠ name) :
    l.find? (fun p => p.1 = name) = none := by
  induction l with
  | nil => rfl
  | cons p t ih =>
    have hp : ¬(p.1 = name) := h p.1 (by simp)
    simp only [List.find?]
    cases hq : (decide (p.1 = name)) with
    | true => exact absurd (of_decide_eq_true hq) hp
    | false => exact ih (fun x hx => h x (by simp at hx ⊢; exact Or.inr hx))

theorem find?_sheets_none {st : Ledger} {name : PyStr}
    (h : (sheetTitles st).contains name = false) :
    st.sheets.find? (fun p => p.1 = name) = none := by
  apply find?_map_fst_none
  intro x hx
  exact ne_of_contains_false h x (by simpa [sheetTitles] using hx)

theorem getGrid_append_fresh {st : Ledger} {name : PyStr} {hd row : List PyStr}
    (h : (sheetTitles st).contains name = false) :
    getGrid (appendRowTo (addSheetWithHeader st name hd) name row) name = [hd, row] := by
  have hne : ∀ x ∈ st.sheets.map Prod.fst, x ≠ name := by
    intro x hx
    exact ne_of_contains_false h x (by simpa [sheetTitles] using hx)
  have hmap : st.sheets.map
      (fun p => if p.1 = name then (p.1, p.2 ++ [row]) else p) = st.sheets := by
    refine (List.map_congr_left ?_).trans (List.map_id st.sheets)
    intro p hp
    have hp1 : ¬(p.1 = name) := hne p.1 (List.mem_map_of_mem Prod.fst hp)
    simp [hp1]
  rw [getGrid, appendRowTo, addSheetWithHeader]
  simp only [List.map_append, hmap, List.map_cons, List.map_nil, if_pos rfl]
  rw [find?_append_none (find?_map_fst_none hne)]
  simp

theorem appendTransaction_fresh_status :
    ∀ (st : Ledger) (now : PyDate) (amount description category : PyStr)
      (dateArg : Option PyStr) (mp itf rt nt : PyStr),
      ((sheetTitles st).contains
          (monthlySheetName now (some (resolvedDateL now dateArg))) = false →
        appendTransactionFP st now amount description category dateArg mp itf rt nt
          = (appendRowTo (addSheetWithHeader st
              (monthlySheetName now (some (resolvedDateL now dateArg)))
              DEFAULT_HEADERS_FP)
              (monthlySheetName now (some (resolvedDateL now dateArg)))
              [resolvedDateL now dateArg,
               (if pyStrip description = [] then pys "Unknown" else pyStrip description),
               amount,
               (if pyStrip category = [] then pys "Uncategorized" else pyStrip category),
               mp, itf, rt, nt],
             pys "appended")) ∧
      ((sheetTitles st).contains
          (localizedMonthName st.locale now (some (resolvedDateL now dateArg))) = false →
        appendTransactionB st now amount description category dateArg
          = (appendRowTo (addSheetWithHeader st
              (localizedMonthName st.locale now (some (resolvedDateL now dateArg)))
              DEFAULT_HEADERS_B)
              (localizedMonthName st.locale now (some (resolvedDateL now dateArg)))
              [resolvedDateL now dateArg,
               (if pyStrip description = [] then pys "Unknown" else pyStrip description),
               (if pyStrip category = [] then pys "Uncategorized" else pyStrip category),
               amount],
             pys "appended")) := by
  intro st now amount description category dateArg mp itf rt nt
  constructor
  · intro h
    have h2 : monthlySheetName now (some (resolvedDateL now dateArg)) ∉ sheetTitles st := by
      simpa using h
    simp [appendTransactionFP, ensureMonthSheet, h2]
  · intro h
    have h2 : localizedMonthName st.locale now (some (resolvedDateL now dateArg))
        ∉ sheetTitles st := by
      simpa using h
    simp [appendTransactionB, ensureMonthSheet, h2]

theorem dropWhile_head?_false {p : Char → Bool} {l : PyStr} :
    ∀ c, (l.dropWhile p).head? = some c → p c = false := by
  induction l with
  | nil => intro c hc; simp at hc
  | cons a t ih =>
    intro c hc
    rw [List.dropWhile_cons] at hc
    by_cases ha : p a = true
    · rw [if_pos ha] at hc; exact ih c hc
    · rw [if_neg ha] at hc
      have : a = c := by simpa using hc
      subst this
      exact Bool.eq_false_iff.mpr ha

theorem pyStrip_prefix_dropWhile (s : PyStr) :
    pyStrip s <+: s.dropWhile isWs := by
  have hsuf : (s.dropWhile isWs).reverse.dropWhile isWs <:+ (s.dropWhile isWs).reverse :=
    List.dropWhile_suffix _
  have h2 := (@List.reverse_prefix _
    ((s.dropWhile isWs).reverse.dropWhile isWs)
    ((s.dropWhile isWs).reverse)).mpr hsuf
  rw [List.reverse_reverse] at h2
  exact h2

theorem pyStrip_head?_false {s : PyStr} :
    ∀ c, (pyStrip s).head? = some c → isWs c = false := by
  intro c hc
  obtain ⟨t, ht⟩ := pyStrip_prefix_dropWhile s
  apply dropWhile_head?_false (l := s) c
  rw [← ht]
  cases hs : pyStrip s with
  | nil => rw [hs] at hc; simp at hc
  | cons a r =>
    rw [hs] at hc
    have : a = c := by simpa using hc
    subst this
    simp

theorem pyStrip_getLast?_false {s : PyStr} :
    ∀ c, (pyStrip s).getLast? = some c → isWs c = false := by
  intro c hc
  rw [pyStrip] at hc
  have h1 : (((s.dropWhile isWs).reverse.dropWhile isWs).reverse).getLast?
      = ((s.dropWhile isWs).reverse.dropWhile isWs).head? := by
    have h0 := List.head?_reverse ((s.dropWhile isWs).reverse.dropWhile isWs).reverse
    rw [List.reverse_reverse] at h0
    exact h0.symm
  rw [h1] at hc
  exact dropWhile_head?_false c hc

theorem pyStrip_eq_self_of_ends {s : PyStr}
    (h1 : ∀ c, s.head? = some c → isWs c = false)
    (h2 : ∀ c, s.getLast? = some c → isWs c = false) : pyStrip s = s := by
  have hd1 : s.dropWhile isWs = s := by
    cases s with
    | nil => rfl
    | cons a t =>
      rw [List.dropWhile_cons, h1 a rfl]
      simp
  rw [pyStrip, hd1]
  have hd2 : s.reverse.dropWhile isWs = s.reverse := by
    cases hr : s.reverse with
    | nil => rfl
    | cons a t =>
      have : s.getLast? = some a := by
        rw [← List.head?_reverse, hr]; rfl
      rw [List.dropWhile_cons, h2 a this]
      simp
  rw [hd2, List.reverse_reverse]

theorem pyStrip_idem (s : PyStr) : pyStrip (pyStrip s) = pyStrip s :=
  pyStrip_eq_self_of_ends pyStrip_head?_false pyStrip_getLast?_false

theorem parseDateL_pyStrip (s : PyStr) : parseDateL (pyStrip s) = parseDateL s := by
  rw [parseDateL, parseDateL, pyStrip_idem]

theorem fixed_categories_stripped :
    ∀ cat ∈ FIXED_CATEGORIES, pyStrip cat = cat ∧ cat ≠ [] := by decide

theorem status_pair_cases {α : Type} (c : Prop) [Decidable c] (x y : α) :
    (if c then (x, pys "duplicate") else (y, pys "appended")).2 = pys "appended" ∨
    (if c then (x, pys "duplicate") else (y, pys "appended")).2 = pys "duplicate" := by
  split
  · right; rfl
  · left; rfl

/-! ## Claims C1–C4, C10 -/
/-- **C1 (code evaluation)** — In `finance_proxy/core/ledger.py`,
`is_duplicate` reads the amount from column D (`row[3]`), which in that
store's schema holds the Category (the amount is column C, as the same
file's `append_transaction` writes it and `list_transactions` reads it).
At the failing input below the partition holds a data row whose
normalized date, case/whitespace-insensitive description and §4.1
amount all match the query, yet `is_duplicate` returns `False` — the
claim's "result is true iff some data row matches" is violated by the
code. -/
theorem C1_is_duplicate_reads_category_column :
    normalizeDateL (some (pys "2024-01-05")) = normalizeDateL (some (pys "05/01/2024")) ∧
    pyLower (normTextFP (pys "Coffee")) = pyLower (normTextFP (pys "Coffee")) ∧
    amountsMatchFP (pys "-4.50") (pys "-4.5") = true ∧
    isDuplicateFP
      [DEFAULT_HEADERS_FP, [pys "2024-01-05", pys "Coffee", pys "-4.50", pys "Dining"]]
      (pys "05/01/2024") (pys "-4.5") (pys "Coffee") = false ∧
    isDuplicateB
      [DEFAULT_HEADERS_B, [pys "2024-01-05", pys "Coffee", pys "Dining", pys "-4.50"]]
      (pys "05/01/2024") (pys "-4.5") (pys "Coffee") = true := by
  refine ⟨by decide, by decide, by decide, by decide, by decide⟩

/-- **C2 (counterexample)** — Submitting the same transaction twice to a
brand-new partition does NOT yield "appended" both times in the backend
store: the first call creates the partition and appends; the second call
sees the partition as existing, runs the duplicate check, and returns
"duplicate". -/
theorem C2_counterexample :
    (appendTransactionB ⟨pys "en_US", [(pys "Other", [])]⟩ ⟨2026, 1, 6⟩
      (pys "42.50") (pys "Test") (pys "Misc") (some (pys "2026-01-06"))).2
      = pys "appended" ∧
    (appendTransactionB
      (appendTransactionB ⟨pys "en_US", [(pys "Other", [])]⟩ ⟨2026, 1, 6⟩
        (pys "42.50") (pys "Test") (pys "Misc") (some (pys "2026-01-06"))).1
      ⟨2026, 1, 6⟩ (pys "42.50") (pys "Test") (pys "Misc")
      (some (pys "2026-01-06"))).2 = pys "duplicate" := by
  refine ⟨by decide, by decide⟩

/-- **C2 (amended)** — For every call to `append_transaction` whose
target month partition did not previously exist, the duplicate check is
never executed and the call returns "appended" (in both store
variants) — regardless of the rest of the store's contents.  The second
of two identical submissions, however, finds the partition created by
the first and runs the duplicate check. -/
theorem C2_skip_duplicate_check_on_creation :
    ∀ (st : Ledger) (now : PyDate) (amount description category : PyStr)
      (dateArg : Option PyStr) (mp itf rt nt : PyStr),
      ((sheetTitles st).contains
          (monthlySheetName now (some (resolvedDateL now dateArg))) = false →
        (appendTransactionFP st now amount description category dateArg
          mp itf rt nt).2 = pys "appended") ∧
      ((sheetTitles st).contains
          (localizedMonthName st.locale now (some (resolvedDateL now dateArg))) = false →
        (appendTransactionB st now amount description category dateArg).2
          = pys "appended") := by
  intro st now amount description category dateArg mp itf rt nt
  have h := appendTransaction_fresh_status st now amount description category dateArg
    mp itf rt nt
  exact ⟨fun hc => by rw [h.1 hc], fun hc => by rw [h.2 hc]⟩

/-- Witness for the amended C2 on an empty store. -/
theorem C2_witness :
    (appendTransactionFP ⟨pys "en_US", []⟩ ⟨2026, 1, 6⟩ (pys "42.50") (pys "Test")
      (pys "Misc") (some (pys "2026-01-06")) [] [] [] []).2 = pys "appended" ∧
    (appendTransactionB ⟨pys "en_US", []⟩ ⟨2026, 1, 6⟩ (pys "42.50") (pys "Test")
      (pys "Misc") (some (pys "2026-01-06"))).2 = pys "appended" := by
  have h := C2_skip_duplicate_check_on_creation ⟨pys "en_US", []⟩ ⟨2026, 1, 6⟩
    (pys "42.50") (pys "Test") (pys "Misc") (some (pys "2026-01-06")) [] [] [] []
  exact ⟨h.1 (by decide), h.2 (by decide)⟩

/-- **C3** — On the commit path (`/ingest/commit` →
`_normalize_category` → `append_transaction`), a category value that
matches no member of the fixed category list case-insensitively is
coerced to the sentinel "Uncategorized"; the value written to the
ledger row is always a member of the fixed list, and (on a fresh
partition) the appended row's Category cell is exactly the coerced
value. -/
theorem C3_commit_category_coercion :
    ∀ (st : Ledger) (now : PyDate) (dateS descS amountS : PyStr)
      (approved suggested : Option PyStr),
      normalizeCategory (pyOrStr approved suggested) ∈ FIXED_CATEGORIES ∧
      ((∀ cat ∈ FIXED_CATEGORIES,
          pyLower (pyStrip ((pyOrStr approved suggested).getD [])) ≠ pyLower cat) →
        normalizeCategory (pyOrStr approved suggested) = UNCATEGORIZED) ∧
      ((sheetTitles st).contains
          (monthlySheetName now (some (resolvedDateL now (some dateS)))) = false →
        (ingestCommitOne st now dateS descS amountS approved suggested).2
            = pys "appended" ∧
        getGrid (ingestCommitOne st now dateS descS amountS approved suggested).1
            (monthlySheetName now (some (resolvedDateL now (some dateS))))
          = [DEFAULT_HEADERS_FP,
             [resolvedDateL now (some dateS),
              (if pyStrip descS = [] then pys "Unknown" else pyStrip descS),
              amountS,
              normalizeCategory (pyOrStr approved suggested),
              [], [], [], []]]) := by
  intro st now dateS descS amountS approved suggested
  have hmem : normalizeCategory (pyOrStr approved suggested) ∈ FIXED_CATEGORIES := by
    cases pyOrStr approved suggested with
    | none => simp only [normalizeCategory]; decide
    | some s =>
      simp only [normalizeCategory]
      by_cases hs : s = []
      · simp only [hs, if_pos rfl]; decide
      · simp only [hs, if_neg hs]
        cases hf : FIXED_CATEGORIES.find?
            (fun cat => pyLower (pyStrip s) = pyLower cat) with
        | none => simp only [hf]; decide
        | some cat => simp only [hf]; exact List.mem_of_find?_eq_some hf
  refine ⟨hmem, ?_, ?_⟩
  · intro hno
    cases hv : pyOrStr approved suggested with
    | none => simp only [normalizeCategory]
    | some s =>
      simp only [normalizeCategory]
      by_cases hs : s = []
      · simp [hs]
      · simp only [hs, if_neg hs]
        have hf : FIXED_CATEGORIES.find?
            (fun cat => pyLower (pyStrip s) = pyLower cat) = none := by
          rw [List.find?_eq_none]
          intro cat hcat
          have := hno cat hcat
          rw [hv] at this
          simpa using this
        rw [hf]
        simp
  · intro hc
    have hfresh := (appendTransaction_fresh_status st now amountS descS
      (normalizeCategory (pyOrStr approved suggested)) (some dateS) [] [] [] []).1 hc
    have hcats := fixed_categories_stripped _ hmem
    have hcatcell : (if pyStrip (normalizeCategory (pyOrStr approved suggested)) = []
        then pys "Uncategorized"
        else pyStrip (normalizeCategory (pyOrStr approved suggested)))
        = normalizeCategory (pyOrStr approved suggested) := by
      rw [hcats.1, if_neg hcats.2]
    rw [ingestCommitOne, hfresh]
    rw [hcatcell]
    exact ⟨rfl, getGrid_append_fresh hc⟩

/-- Witness for C3 at the non-member value `"NotACategory"`. -/
theorem C3_witness :
    normalizeCategory (pyOrStr (some (pys "NotACategory")) none) ∈ FIXED_CATEGORIES ∧
    normalizeCategory (pyOrStr (some (pys "NotACategory")) none) = UNCATEGORIZED ∧
    (ingestCommitOne ⟨pys "en_US", []⟩ ⟨2026, 1, 6⟩ (pys "2026-01-06") (pys "Coffee")
      (pys "-4.50") (some (pys "NotACategory")) none).2 = pys "appended" := by
  have h := C3_commit_category_coercion ⟨pys "en_US", []⟩ ⟨2026, 1, 6⟩
    (pys "2026-01-06") (pys "Coffee") (pys "-4.50") (some (pys "NotACategory")) none
  exact ⟨h.1, h.2.1 (by decide), (h.2.2 (by decide)).1⟩

/-- **C4** — `list_transactions` on a month anchor whose resolved
partition is not in the store returns the month label with a zero count
and an empty transaction list; the function is total, so no error is
raised for a missing partition. -/
theorem C4_list_transactions_missing_partition :
    ∀ (st : Ledger) (now : PyDate) (month year : Option Int)
      (date dateValue : Option PyStr),
      (sheetTitles st).contains
        (monthlySheetName now (monthAnchor now month year
          (match dateValue with | none => date | some s => some s))) = false →
      listTransactionsFP st now month year date dateValue
        = ⟨monthlySheetName now (monthAnchor now month year
            (match dateValue with | none => date | some s => some s)), 0, []⟩ := by
  intro st now month year date dateValue h
  cases dateValue with
  | none =>
    have h2 : monthlySheetName now (monthAnchor now month year date)
        ∉ sheetTitles st := by simpa using h
    simp [listTransactionsFP, h2]
  | some s =>
    have h2 : monthlySheetName now (monthAnchor now month year (some s))
        ∉ sheetTitles st := by simpa using h
    simp [listTransactionsFP, h2]

/-- Witness for C4 on a store that lacks the anchored month. -/
theorem C4_witness :
    listTransactionsFP ⟨pys "en_US", [(pys "2025-12", [DEFAULT_HEADERS_FP])]⟩
      ⟨2026, 1, 6⟩ none none (some (pys "2026-01-06")) none
      = ⟨pys "2026-01", 0, []⟩ := by
  have h := C4_list_transactions_missing_partition
    ⟨pys "en_US", [(pys "2025-12", [DEFAULT_HEADERS_FP])]⟩ ⟨2026, 1, 6⟩
    none none (some (pys "2026-01-06")) none (by decide)
  rw [h]
  decide

/-- **C10** — `append_transaction` never rejects a transaction because
of its date: the call always returns "appended" or "duplicate"; a
`None` or blank date resolves to the current day; a non-blank date that
parses under no known format resolves to its stripped text verbatim and
the partition to the current month; and on a fresh partition the row is
written with exactly that resolved date as its Date cell. -/
theorem C10_append_date_never_rejected :
    ∀ (st : Ledger) (now : PyDate) (amount description category : PyStr)
      (dateArg : Option PyStr) (mp itf rt nt : PyStr),
      ((appendTransactionFP st now amount description category dateArg
          mp itf rt nt).2 = pys "appended" ∨
       (appendTransactionFP st now amount description category dateArg
          mp itf rt nt).2 = pys "duplicate") ∧
      (dateArg = none → resolvedDateL now dateArg = fmtIsoDate now) ∧
      (∀ s, dateArg = some s → pyStrip s = [] →
        resolvedDateL now dateArg = fmtIsoDate now) ∧
      (∀ s, dateArg = some s → parseDateL s = none → pyStrip s ≠ [] →
        resolvedDateL now dateArg = pyStrip s ∧
        monthlySheetName now (some (resolvedDateL now dateArg))
          = padChars 4 now.y ++ '-' :: pad2 now.m) ∧
      ((sheetTitles st).contains
          (monthlySheetName now (some (resolvedDateL now dateArg))) = false →
        (appendTransactionFP st now amount description category dateArg
            mp itf rt nt).2 = pys "appended" ∧
        getGrid (appendTransactionFP st now amount description category dateArg
            mp itf rt nt).1
            (monthlySheetName now (some (resolvedDateL now dateArg)))
          = [DEFAULT_HEADERS_FP,
             [resolvedDateL now dateArg,
              (if pyStrip description = [] then pys "Unknown" else pyStrip description),
              amount,
              (if pyStrip category = [] then pys "Uncategorized" else pyStrip category),
              mp, itf, rt, nt]]) := by
  intro st now amount description category dateArg mp itf rt nt
  refine ⟨?_, ?_, ?_, ?_, ?_⟩
  · simp only [appendTransactionFP]
    exact status_pair_cases _ _ _
  · intro h
    subst h
    rfl
  · intro s h hs
    subst h
    rw [resolvedDateL, normalizeDateL, parseDateL, if_pos hs, hs]
    simp
  · intro s h hp hs
    subst h
    have hnd : normalizeDateL (some s) = pyStrip s := by
      rw [normalizeDateL, hp]
    have hres : resolvedDateL now (some s) = pyStrip s := by
      rw [resolvedDateL, hnd, if_neg hs]
    refine ⟨hres, ?_⟩
    rw [hres, monthlySheetName, parseDateL_pyStrip, hp]
  · intro hc
    have hfresh := (appendTransaction_fresh_status st now amount description category
      dateArg mp itf rt nt).1 hc
    rw [hfresh]
    exact ⟨rfl, getGrid_append_fresh hc⟩

/-- Witness for C10 at the unparsable date `"not-a-date"` on an empty
store. -/
theorem C10_witness :
    resolvedDateL ⟨2026, 1, 6⟩ (some (pys " not-a-date ")) = pys "not-a-date" ∧
    monthlySheetName ⟨2026, 1, 6⟩
      (some (resolvedDateL ⟨2026, 1, 6⟩ (some (pys " not-a-date ")))) = pys "2026-01" ∧
    (appendTransactionFP ⟨pys "en_US", []⟩ ⟨2026, 1, 6⟩ (pys "5.00") (pys "Coffee")
      (pys "Misc") (some (pys " not-a-date ")) [] [] [] []).2 = pys "appended" := by
  have h := C10_append_date_never_rejected ⟨pys "en_US", []⟩ ⟨2026, 1, 6⟩
    (pys "5.00") (pys "Coffee") (pys "Misc") (some (pys " not-a-date ")) [] [] [] []
  have h4 := h.2.2.2.1 (pys " not-a-date ") rfl (by decide) (by decide)
  refine ⟨by decide, ?_, (h.2.2.2.2 (by decide)).1⟩
  rw [h4.2]
  decide

theorem sign_natAbs_cast (v : Int) :
    ((if v < 0 then (-1 : ℚ) else 1) * v.natAbs) = (v : ℚ) := by
  by_cases hv : v < 0
  · rw [if_pos hv]
    have h1 : (v.natAbs : Int) = -v := Int.ofNat_natAbs_of_nonpos (le_of_lt hv)
    have h2 : ((v.natAbs : Int) : ℚ) = (v.natAbs : ℚ) := Int.cast_natCast v.natAbs
    rw [← h2, h1, Int.cast_neg]
    ring
  · rw [if_neg hv]
    have h1 : (v.natAbs : Int) = v := Int.natAbs_of_nonneg (not_lt.mp hv)
    have h2 : ((v.natAbs : Int) : ℚ) = (v.natAbs : ℚ) := Int.cast_natCast v.natAbs
    rw [← h2, h1]
    ring

theorem decValQ_scaled (neg : Bool) (mant : Nat) (sc s : Nat) (hs : sc ≤ s) :
    ((if neg then (-1 : ℚ) else 1) * mant * 10 ^ (s - sc)) / 10 ^ s
      = decValQ ⟨neg, mant, sc⟩ := by
  rw [decValQ]
  have h10 : (10 : ℚ) ^ s = 10 ^ sc * 10 ^ (s - sc) := by
    rw [← pow_add]
    congr 1
    omega
  rw [h10]
  have hne1 : (10 : ℚ) ^ sc ≠ 0 := pow_ne_zero _ (by norm_num)
  have hne2 : (10 : ℚ) ^ (s - sc) ≠ 0 := pow_ne_zero _ (by norm_num)
  field_simp
  ring

/-- `Decimal` subtraction computes the difference of values. -/
theorem decValQ_decSub (a b : PyDec) :
    decValQ (decSub a b) = decValQ a - decValQ b := by
  rw [decSub]
  set s := max a.scale b.scale with hs
  set va : Int := (if a.neg then -1 else 1) * a.mant * 10 ^ (s - a.scale) with hva
  set vb : Int := (if b.neg then -1 else 1) * b.mant * 10 ^ (s - b.scale) with hvb
  have hL : decValQ ⟨decide (va - vb < 0), (va - vb).natAbs, s⟩
      = ((va - vb : Int) : ℚ) / 10 ^ s := by
    rw [decValQ]
    simp only [decide_eq_true_eq]
    rw [show ((if va - vb < 0 then (-1:ℚ) else 1) * ((va - vb).natAbs : ℚ))
        = ((va - vb : Int) : ℚ) from sign_natAbs_cast (va - vb)]
  rw [hL]
  have hcast : ((va - vb : Int) : ℚ) = (va : ℚ) - (vb : ℚ) := by push_cast; ring
  rw [hcast, sub_div]
  have hva' : (va : ℚ) = (if a.neg then (-1 : ℚ) else 1) * a.mant * 10 ^ (s - a.scale) := by
    rw [hva]; push_cast; cases a.neg <;> simp
  have hvb' : (vb : ℚ) = (if b.neg then (-1 : ℚ) else 1) * b.mant * 10 ^ (s - b.scale) := by
    rw [hvb]; push_cast; cases b.neg <;> simp
  rw [hva', hvb',
    decValQ_scaled a.neg a.mant a.scale s (le_max_left _ _),
    decValQ_scaled b.neg b.mant b.scale s (le_max_right _ _)]

/-- Scale-0 analogue of the canonical-form roundtrip. -/
theorem parseDec_strDec_zero (neg : Bool) (m : Nat) :
    parseDec (strDec ⟨neg, m, 0⟩) = some ⟨neg, m, 0⟩ := by
  have hne : natChars m ≠ [] := natChars_ne_nil _
  have hall : (natChars m).all isDigitCh = true :=
    List.all_eq_true.mpr (fun x hx => natChars_all_digit _ x hx)
  have hsplit : splitCh '.' (natChars m) = [natChars m] :=
    splitCh_sepFree (fun x hx => digit_ne_dot (natChars_all_digit _ x hx))
  have hcore : parseDecCore neg (natChars m) = some ⟨neg, m, 0⟩ := by
    rw [parseDecCore, hsplit]
    simp [hne, hall, valBE_natChars]
  have hsign : parseSign (strDec ⟨neg, m, 0⟩) = (neg, natChars m) := by
    rw [show strDec ⟨neg, m, 0⟩ = (if neg then ['-'] else []) ++ natChars m from rfl]
    cases neg with
    | true => simp [parseSign]
    | false =>
      simp only [Bool.false_eq_true, if_false, List.nil_append]
      obtain ⟨x, xs, hxs⟩ : ∃ x xs, natChars m = x :: xs := by
        cases h : natChars m with
        | nil => exact absurd h hne
        | cons x xs => exact ⟨x, xs, rfl⟩
      have hxd : isDigitCh x = true := natChars_all_digit _ x (by rw [hxs]; simp)
      rw [hxs, parseSign_no_sign (digit_ne_plus hxd) (digit_ne_minus hxd)]
  rw [parseDec, hsign]
  exact hcore

theorem parseDec_strDec_small {x : PyDec} (h : x.scale = 0 ∨ x.scale = 2) :
    parseDec (strDec x) = some x := by
  rcases h with h | h
  · have hx : x = ⟨x.neg, x.mant, 0⟩ := by cases x; simp only at h; subst h; rfl
    rw [hx]; exact parseDec_strDec_zero _ _
  · have hx : x = ⟨x.neg, x.mant, 2⟩ := by cases x; simp only at h; subst h; rfl
    rw [hx]; exact parseDec_strDec_two _ _

/-- The decimal behind one side of the debit/credit subtraction: the
normalized cell value, or a zero when the cell does not normalize. -/
theorem debitCredit_side (v : PyStr) :
    ((parseDec ((normalizeAmountStrOpt (some v)).getD (pys "0"))).getD ⟨false, 0, 0⟩
      = (normalizeAmountDec v).getD ⟨false, 0, 0⟩) ∧
    (((parseDec ((normalizeAmountStrOpt (some v)).getD (pys "0"))).getD
        ⟨false, 0, 0⟩).scale = 0 ∨
     ((parseDec ((normalizeAmountStrOpt (some v)).getD (pys "0"))).getD
        ⟨false, 0, 0⟩).scale = 2) := by
  cases hv : normalizeAmountDec v with
  | none =>
    have he : (normalizeAmountStrOpt (some v)).getD (pys "0") = pys "0" := by
      rw [normalizeAmountStrOpt, normalizeAmountStr, hv]; rfl
    have hp : parseDec (pys "0") = some ⟨false, 0, 0⟩ := by decide
    constructor
    · rw [he, hp]; rfl
    · left; rw [he, hp]; rfl
  | some d =>
    have hsc : d.scale = 2 := normalizeAmountDec_scale hv
    have hd2 : d = ⟨d.neg, d.mant, 2⟩ := eta_scale_two hsc
    have hparse : parseDec (strDec d) = some d := by
      rw [hd2]; exact parseDec_strDec_two _ _
    have he : (normalizeAmountStrOpt (some v)).getD (pys "0") = strDec d := by
      rw [normalizeAmountStrOpt, normalizeAmountStr, hv, Option.map_some',
        Option.getD_some]
    constructor
    · rw [he, hparse]
    · right; rw [he, hparse]; exact hsc

/-- **C5 (amended)** — In the legacy parser (`finance-proxy/ingest.py`),
under a header mapping with debit/credit columns and no unified amount:
the extracted amount string always denotes credit minus debit, where a
blank OR unparsable side contributes zero; when both sides are blank the
row is NOT excluded — it receives the literal amount `"0"` (which
normalizes to `"0.00"`), flowing into the output with value zero.  (The
core parser `finance_proxy/core/ingest.py` adds an `if debit or credit`
guard, but its alias table has no debit/credit entries, so such a
mapping never arises there.) -/
theorem C5_debit_credit_amount :
    ∀ (m : HdrMapping) (row : List PyStr) (i j : Nat) (db cr : PyStr),
      m.amount = none → m.debit = some i → m.credit = some j →
      cellAt row i = Except.ok db → cellAt row j = Except.ok cr →
      legacyAmountVal m row
          = Except.ok (some (debitCreditAmount (some db) (some cr))) ∧
      decValQ ((parseDec (debitCreditAmount (some db) (some cr))).getD
          ⟨false, 0, 0⟩)
        = decValQ ((normalizeAmountDec cr).getD ⟨false, 0, 0⟩)
          - decValQ ((normalizeAmountDec db).getD ⟨false, 0, 0⟩) ∧
      (db = [] → cr = [] →
        debitCreditAmount (some db) (some cr) = pys "0" ∧
        normalizeAmountStrOpt (some (debitCreditAmount (some db) (some cr)))
          = some (pys "0.00")) := by
  intro m row i j db cr ham hdb hcr hcelli hcellj
  refine ⟨?_, ?_, ?_⟩
  · simp [legacyAmountVal, ham, hdb, hcr, hcelli, hcellj]
    rfl
  · have hd := debitCredit_side db
    have hc := debitCredit_side cr
    have hparse : parseDec (debitCreditAmount (some db) (some cr))
        = some (decSub
            ((parseDec ((normalizeAmountStrOpt (some cr)).getD (pys "0"))).getD
              ⟨false, 0, 0⟩)
            ((parseDec ((normalizeAmountStrOpt (some db)).getD (pys "0"))).getD
              ⟨false, 0, 0⟩)) := by
      rw [debitCreditAmount]
      apply parseDec_strDec_small
      rw [show (decSub _ _).scale = max _ _ from rfl]
      rcases hc.2 with h1 | h1 <;> rcases hd.2 with h2 | h2 <;>
        rw [h1, h2] <;> simp
    rw [hparse, Option.getD_some, decValQ_decSub, hc.1, hd.1]
  · intro h1 h2
    subst h1
    subst h2
    exact ⟨by decide, by decide⟩

/-- Witness for C5 (spec scenario B: debit `100,00`, credit blank). -/
theorem C5_witness :
    legacyAmountVal
        (headerMapLegacy [pys "date", pys "description", pys "debit", pys "credit"])
        [pys "2024-01-05", pys "Rent", pys "100,00", pys ""]
      = Except.ok (some (pys "-100.00")) ∧
    decValQ ((parseDec (debitCreditAmount (some (pys "100,00")) (some (pys "")))).getD
        ⟨false, 0, 0⟩)
      = decValQ ((normalizeAmountDec (pys "")).getD ⟨false, 0, 0⟩)
        - decValQ ((normalizeAmountDec (pys "100,00")).getD ⟨false, 0, 0⟩) := by
  have h := C5_debit_credit_amount
    (headerMapLegacy [pys "date", pys "description", pys "debit", pys "credit"])
    [pys "2024-01-05", pys "Rent", pys "100,00", pys ""] 2 3
    (pys "100,00") (pys "")
    (by decide) (by decide) (by decide) rfl rfl
  refine ⟨?_, h.2.1⟩
  rw [h.1]
  rfl

/-- **C5 (counterexample)** — A legacy-parser row whose debit and credit
cells are both blank is retained with the default amount `"0"`
(normalized `"0.00"`), not excluded: the claim's second half fails on
`finance-proxy/ingest.py`. -/
theorem C5_counterexample :
    (headerMapLegacy [pys "date", pys "description", pys "debit", pys "credit"]).amount
      = none ∧
    (headerMapLegacy [pys "date", pys "description", pys "debit", pys "credit"]).debit
      = some 2 ∧
    (headerMapLegacy [pys "date", pys "description", pys "debit", pys "credit"]).credit
      = some 3 ∧
    (parseStatementLegacyTx none none
        [[pys "date", pys "description", pys "debit", pys "credit"],
         [pys "2024-01-05", pys "Stuff", pys "", pys ""]]).map
        (List.map (fun t => t.amount))
      = Except.ok [pys "0.00"] := by
  refine ⟨by decide, by decide, by decide, rfl⟩

/-- **C6 (counterexample)** — An input whose first 20 rows contain no
header mapping all of date/amount/description does NOT yield zero
transactions: the core parser falls back to positional extraction and
produces one transaction here (without raising — the embedding is
total). -/
theorem C6_counterexample :
    (findHeaderCore (filterBlankRows
        [[pys "junk"], [pys "2024-01-05", pys "Coffee", pys "-4.50", pys "USD"]])).2
      = emptyMapping ∧
    (parseStatementCoreTx none
        [[pys "junk"], [pys "2024-01-05", pys "Coffee", pys "-4.50", pys "USD"]]).map
        (fun t => t.amount)
      = [pys "-4.50"] := by
  refine ⟨by decide, by decide⟩

/-- **C6 (amended)** — When no row within the first 20 rows maps all of
date, amount and description, parsing does not raise (the extraction is
total) but it does NOT produce zero transactions by fiat: `_parse_csv`
falls back to positional extraction (date=0, description=1, amount=2,
currency=3) over every non-blank row after the first, and the
normalization stage keeps whichever of those rows have a parsable date
and amount. -/
theorem C6_no_header_positional_fallback :
    ∀ (rows : List (List PyStr)) (fc : Option PyStr),
      (findHeaderCore (filterBlankRows rows)).2 = emptyMapping →
      parseCsvCore rows
        = ((filterBlankRows rows).drop 1).enum.map (fun p =>
            let e := extractRowPositional p.2
            (⟨e.1, e.2.1, e.2.2.1, e.2.2.2, 1 + p.1 + 1⟩ : RawTx)) ∧
      parseStatementCoreTx fc rows
        = (((filterBlankRows rows).drop 1).enum.map (fun p =>
            let e := extractRowPositional p.2
            (⟨e.1, e.2.1, e.2.2.1, e.2.2.2, 1 + p.1 + 1⟩ : RawTx))).filterMap
            (normalizeRowCore fc) := by
  intro rows fc h
  have hfind : ((filterBlankRows rows).take 20).enum.find?
      (fun p => hasCritical (headerMapCore p.2)) = none := by
    cases hf : ((filterBlankRows rows).take 20).enum.find?
        (fun p => hasCritical (headerMapCore p.2)) with
    | none => rfl
    | some p =>
      have hcrit : hasCritical (headerMapCore p.2) = true := by
        simpa using List.find?_some hf
      have hempty : (findHeaderCore (filterBlankRows rows)).2 = headerMapCore p.2 := by
        rw [findHeaderCore, hf]
      rw [h] at hempty
      rw [← hempty] at hcrit
      exact absurd hcrit (by decide)
  have hm : findHeaderCore (filterBlankRows rows) = (0, emptyMapping) := by
    rw [findHeaderCore, hfind]
  have hcsv : parseCsvCore rows
      = ((filterBlankRows rows).drop 1).enum.map (fun p =>
          let e := extractRowPositional p.2
          (⟨e.1, e.2.1, e.2.2.1, e.2.2.2, 1 + p.1 + 1⟩ : RawTx)) := by
    by_cases hnil : filterBlankRows rows = []
    · rw [parseCsvCore, if_pos hnil, hnil]
      rfl
    · rw [parseCsvCore, if_neg hnil, hm]
      simp only [mappingNonempty, emptyMapping, Option.isSome_none,
        Bool.false_eq_true, or_self, if_false]
      rfl
  exact ⟨hcsv, by rw [parseStatementCoreTx, hcsv]⟩

/-- Witness for the amended C6. -/
theorem C6_witness :
    parseCsvCore [[pys "junk"], [pys "2024-01-05", pys "Coffee", pys "-4.50", pys "USD"]]
      = ((filterBlankRows
          [[pys "junk"], [pys "2024-01-05", pys "Coffee", pys "-4.50", pys "USD"]]).drop
          1).enum.map (fun p =>
          let e := extractRowPositional p.2
          (⟨e.1, e.2.1, e.2.2.1, e.2.2.2, 1 + p.1 + 1⟩ : RawTx)) := by
  exact (C6_no_header_positional_fallback
    [[pys "junk"], [pys "2024-01-05", pys "Coffee", pys "-4.50", pys "USD"]]
    none (by decide)).1

/-- **C9** — On any line whose (stripped) text yields a date-token search
hit `d` and at least two amount-shaped tokens (the claim assumes exactly
one date token and two or more amount tokens, which implies these
hypotheses), `_parse_pdf` emits a raw transaction whose amount is the
LAST amount-shaped token of the line. -/
theorem C9_last_amount_token (line d : PyStr)
    (hd : dateSearchTop (pyStrip line) = some d)
    (hlen : 2 ≤ (findAmounts (pyStrip line)).length) :
    ∃ a, (findAmounts (pyStrip line)).getLast? = some a ∧
      parsePdfLine line
        = some (d, pyStripSet [' ', '-']
            (pyReplaceAll (pyReplaceAll (pyStrip line) d) a), a) := by
  have hne : pyStrip line ≠ [] := by
    intro h
    rw [h] at hlen
    simp [findAmounts, findAmountsAux] at hlen
  have hfne : findAmounts (pyStrip line) ≠ [] := by
    intro h
    rw [h] at hlen
    simp at hlen
  refine ⟨(findAmounts (pyStrip line)).getLast hfne,
    List.getLast?_eq_getLast _ hfne, ?_⟩
  rw [parsePdfLine, if_neg hne, hd, List.getLast?_eq_getLast _ hfne]

/-- Witness for C9 (spec scenario D shape: a balance and a transaction
amount on one line; the rightmost token is chosen). -/
theorem C9_witness :
    (findAmounts (pyStrip (pys "2024-01-05 Coffee 1.000,00 25,50"))).getLast?
      = some (pys "25,50") ∧
    parsePdfLine (pys "2024-01-05 Coffee 1.000,00 25,50")
      = some (pys "2024-01-05", pys "Coffee 1.000,00", pys "25,50") := by
  obtain ⟨a, ha, hp⟩ := C9_last_amount_token
    (pys "2024-01-05 Coffee 1.000,00 25,50") (pys "2024-01-05")
    (by decide) (by decide)
  have hax : (findAmounts (pyStrip (pys "2024-01-05 Coffee 1.000,00 25,50"))).getLast?
      = some (pys "25,50") := by decide
  rw [ha] at hax
  obtain rfl := Option.some.inj hax
  refine ⟨ha, ?_⟩
  rw [hp]
  decide

end AIAnalyst
